import Mathlib

/-!
# The static RigidBodyDynamics driver (`libs/rbdjl/static-rbdjl/driver.c`)

A shallow embedding of `main`: the option scan done with libc `getopt`,
the two configuration checks, and the fixed pipeline of calls into the
embedded Julia runtime and the precompiled dynamics library.  A run of
`main` is described by how the process ends and by the sequence of calls
that leave `main` (libc output, runtime calls, stores through raw buffer
pointers), in program order.  Runtime handles, the state dimensions and
the content of the uninitialised `retcode` are parameters of a run.
-/

namespace Driver

/-! ## libc `getopt` -/

/-- Scanning state of `getopt`: `args` are the elements `argv[optind..]`
that have not been looked at, `nextchar` the option characters of the
element being scanned that have not been returned, `optarg` the libc
variable of that name (`none` is `NULL`). -/
structure GetoptState where
  args : List String
  nextchar : List Char
  optarg : Option String
deriving DecidableEq, Repr

/-- Look an option character up in an option string: `none` when it is
not an option character, `some true` when it is one followed by `:`
(takes an argument), `some false` otherwise.  `:` itself is never an
option character. -/
def optSpec : List Char → Char → Option Bool
  | [], _ => none
  | o :: rest, c =>
    if o = c ∧ c ≠ ':' then some (rest.head? = some ':') else optSpec rest c

/-- One option character `c` of the element being scanned, `cs` being the
characters after it in that element.  With `opterr = 0` nothing is
printed; as the option string does not start with `:`, a missing
option-argument is reported as `?` like an unknown option. -/
def scanChar (optstring : String) (c : Char) (cs : List Char) (args : List String) :
    Option Char × GetoptState :=
  match optSpec optstring.toList c with
  | none => (some '?', { args := args, nextchar := cs, optarg := none })
  | some false => (some c, { args := args, nextchar := cs, optarg := none })
  | some true =>
    match cs with
    | _ :: _ => (some c, { args := args, nextchar := [], optarg := some (String.mk cs) })
    | [] =>
      match args with
      | a :: rest => (some c, { args := rest, nextchar := [], optarg := some a })
      | [] => (some '?', { args := [], nextchar := [], optarg := none })

/-- Move to the next element of `argv`.  The element `--` ends the scan;
an element that is not an option (`-` alone, or not starting with `-`)
ends the scan in POSIX mode and is skipped when libc permutes `argv`
(the GNU default, `permute = true`). -/
def advance (permute : Bool) (optstring : String) : List String → Option Char × GetoptState
  | [] => (none, { args := [], nextchar := [], optarg := none })
  | a :: rest =>
    match a.toList with
    | ['-', '-'] => (none, { args := rest, nextchar := [], optarg := none })
    | '-' :: c :: cs => scanChar optstring c cs rest
    | _ =>
      if permute then advance permute optstring rest
      else (none, { args := a :: rest, nextchar := [], optarg := none })

/-- One call `getopt(argc, argv, optstring)`: the value returned (`none`
is `-1`) and the new scanning state. -/
def getopt (permute : Bool) (optstring : String) (st : GetoptState) :
    Option Char × GetoptState :=
  match st.nextchar with
  | c :: cs => scanChar optstring c cs st.args
  | [] => advance permute optstring st.args

/-- The state `getopt` starts from: `optind = 1`, so `argv[0]` is not
scanned. -/
def getoptInit (argv : List String) : GetoptState :=
  { args := argv.tail, nextchar := [], optarg := none }

/-- Whether the option cluster `cs` (the characters after the `-`) ends
in an option whose argument is the next element of `argv`. -/
def takesNext (optstring : String) : List Char → Bool
  | [] => false
  | c :: cs =>
    match optSpec optstring.toList c with
    | some true => cs.isEmpty
    | _ => takesNext optstring cs

/-- What an element of `argv` is to `getopt` when it comes to it: the
end-of-options mark `--`, an option cluster (with whether its last
option takes the next element as its argument), or an operand. -/
inductive ArgKind where
  | endOfOptions
  | cluster (next : Bool)
  | operand
deriving DecidableEq, Repr

/-- Classify an element of `argv`, as `advance` does. -/
def argKind (optstring : String) (a : String) : ArgKind :=
  match a.toList with
  | ['-', '-'] => .endOfOptions
  | '-' :: c :: cs => .cluster (takesNext optstring (c :: cs))
  | _ => .operand

/-- The elements `argv[1..]` sorted as a GNU scan that has run to its end
leaves them: the option elements (with the option-arguments given as
elements of their own, and a `--`) and the operands, each group in its
order. -/
def permuted (optstring : String) : List String → List String × List String
  | [] => ([], [])
  | [a] =>
    match argKind optstring a with
    | .operand => ([], [a])
    | _ => ([a], [])
  | a :: b :: rest =>
    match argKind optstring a with
    | .endOfOptions => ([a], b :: rest)
    | .cluster true => (a :: b :: (permuted optstring rest).1, (permuted optstring rest).2)
    | .cluster false =>
      (a :: (permuted optstring (b :: rest)).1, (permuted optstring (b :: rest)).2)
    | .operand => ((permuted optstring (b :: rest)).1, a :: (permuted optstring (b :: rest)).2)

/-- The array `argv` as `getopt` leaves it when the scan has ended: as it
was in POSIX mode; in GNU mode `argv[0]`, then the options, then the
operands. -/
def argvAfterGetopt (permute : Bool) (optstring : String) (argv : List String) : List String :=
  if permute then
    match argv with
    | [] => []
    | a0 :: rest => a0 :: ((permuted optstring rest).1 ++ (permuted optstring rest).2)
  else argv

/-- Number of characters and elements `getopt` has still to scan; every
call that does not return `-1` lowers it. -/
def GetoptState.size (st : GetoptState) : Nat :=
  st.nextchar.length + (st.args.map fun a => a.length + 1).sum

/-! ## Argument parsing in `main` (lines 63-84) -/

/-- The locals `urdf`, `floating`, `csv` of `main` (`none` is `NULL`). -/
structure Locals where
  urdf : Option String
  floating : Bool
  csv : Option String
deriving DecidableEq, Repr

/-- How the `while`/`switch` of lines 70-84 ends. -/
inductive Parse where
  | abort
  | done (l : Locals)
deriving DecidableEq, Repr

/-- The loop `while ((c = getopt(argc, argv, "u:fc:")) != -1) switch (c)`.
The first argument bounds the number of iterations; `none` means the
bound was too small. -/
def parseLoop (permute : Bool) : Nat → GetoptState → Locals → Option Parse
  | 0, _, _ => none
  | fuel + 1, st, l =>
    match getopt permute "u:fc:" st with
    | (none, _) => some (.done l)
    | (some c, st') =>
      if c = 'u' then parseLoop permute fuel st' { l with urdf := st'.optarg }
      else if c = 'f' then parseLoop permute fuel st' { l with floating := true }
      else if c = 'c' then parseLoop permute fuel st' { l with csv := st'.optarg }
      else some .abort

/-- Lines 64-84 of `main`. -/
def parseArgs (permute : Bool) (argv : List String) : Option Parse :=
  parseLoop permute ((getoptInit argv).size + 1) (getoptInit argv)
    { urdf := none, floating := false, csv := none }

/-! ## The run of `main` -/

/-- A runtime object handle, `jl_value_t*` or `jl_function_t*`; `0` is
`NULL`. -/
abbrev Handle := Nat

/-- The locals of `main` whose addresses `JL_GC_PUSH5` registers in a GC
frame (lines 107-109). -/
inductive Slot where
  | mechanism | state | result | vd_desired | tau
deriving DecidableEq, Repr

/-- What leaves `main`, in program order: libc output, calls into libuv,
the Julia runtime and the precompiled library (with the value returned,
`ret`, where `main` uses it), the GC-frame macros, stores into the locals
registered in the GC frame, and stores through the raw pointers that
`jl_array_data` returned (a pointer is named by the array `arr` it was
taken from). -/
inductive Event where
  | fprintf_stderr (msg : String)
  | printf (msg : String)
  | uv_setup_args (argc : Nat) (argv : List String)
  | libsupport_init
  | set_image_file (file : String)
  | julia_init
  | JL_GC_PUSH5 (a1 a2 a3 a4 a5 : Slot)
  | JL_GC_POP
  | assign (slot : Slot) (h : Handle)
  | jl_eval_string (str : String)
  | create_mechanism (urdf : String) (floating : Bool) (scalar : Int) (ret : Handle)
  | create_state (mechanism : Handle) (ret : Handle)
  | create_dynamics_result (mechanism : Handle) (ret : Handle)
  | jl_get_function (name : String) (ret : Handle)
  | jl_call1 (f : Handle) (a : Handle) (ret : Handle)
  | jl_unbox_int64 (v : Handle) (ret : Int)
  | jl_get_field (o : Handle) (fld : String) (ret : Handle)
  | jl_array_data (arr : Handle)
  | store (arr : Handle) (i : Nat) (val : ℚ)
  | inverse_dynamics (tau jointwrenches accelerations state vd_desired : Handle)
  | mass_matrix (M state : Handle)
  | dynamics (result state tau : Handle)
  | jl_atexit_hook (status : Int)
deriving DecidableEq, Repr

/-- How the process ends: `abort()` (abnormal termination by `SIGABRT`,
non-zero status), `return` from `main` with a status, or termination
inside a runtime call that never returns to `main`. -/
inductive Exit where
  | abort
  | exit (status : Int)
  | fatal
deriving DecidableEq, Repr

/-- A run of `main`. -/
structure Run where
  exit : Exit
  trace : List Event
deriving DecidableEq, Repr

/-- What the process environment fixes: whether libc `getopt` permutes
`argv` (GNU default) or stops at the first operand (POSIX), and the
indeterminate content of the automatic variable `retcode`, which line 94
declares without an initialiser and nothing assigns. -/
structure Env where
  permute : Bool
  retcode : Int

/-- The macros given on the compiler command line.  `SCALAR_TYPE` is `1`
(`T` is `double`) or `2` (`T` is `float`). -/
structure Build where
  SCALAR_TYPE : Int
  JULIAC_PROGRAM_LIBNAME : String

/-- The values the runtime returns to `main` in one run, one field per
call site in program order. -/
structure Runtime where
  mechanism : Handle
  state : Handle
  result : Handle
  num_positions : Handle
  nq_box : Handle
  nq : Int
  num_velocities : Handle
  nv_box : Handle
  nv : Int
  jointwrenches : Handle
  accelerations : Handle
  M : Handle
  vd : Handle
  configuration : Handle
  velocity : Handle
  similar : Handle
  q : Handle
  v : Handle
  vd_desired : Handle
  tau : Handle
  parent : Handle
  q_parent : Handle
  v_parent : Handle
  vd_desired_parent : Handle
  tau_parent : Handle
  vd_parent : Handle
  M_parent : Handle

/-- Conversion of an `int64_t` to `int` (`int nq = jl_unbox_int64(...)`):
the value modulo `2^32` in the range of a 32-bit `int`. -/
def toInt (x : Int) : Int := (x + 2 ^ 31) % 2 ^ 32 - 2 ^ 31

/-- The loop `for (i = 0; i < n; i = i + 1) body`, for a body that does
not change `i` or `n`: the body runs for `i = 0, ..., n - 1`, not at all
when `n <= 0`. -/
def forLoop (n : Int) (body : Nat → List Event) : List Event :=
  (List.range n.toNat).flatMap body

/-- Lines 169-177, the dummy inputs: the constants `1.0` to `4.0` are
exactly representable in `float` and in `double`, so the value stored is
the constant for either `T`. -/
def populate (rt : Runtime) (nq nv : Int) : List Event :=
  forLoop nq (fun i => [.store rt.q_parent i 1.0]) ++
  forLoop nv (fun i =>
    [.store rt.v_parent i 2.0, .store rt.vd_desired_parent i 3.0, .store rt.tau_parent i 4.0])

/-- Lines 96-131: bring the runtime up, register the GC frame, load the
mechanism, create state and result.  `av` is the array `argv` as `getopt`
left it; `uv_setup_args` is handed its length `argc` and the array. -/
def setup (b : Build) (rt : Runtime) (av : List String) (urdf : String) (floating : Bool) :
    List Event :=
  [ .uv_setup_args av.length av,
    .libsupport_init,
    .set_image_file b.JULIAC_PROGRAM_LIBNAME,
    .julia_init,
    .JL_GC_PUSH5 .mechanism .state .result .vd_desired .tau,
    .jl_eval_string "using RigidBodyDynamics.LinearAlgebra",
    .jl_eval_string "BLAS.set_num_threads(1)" ] ++
  (if b.SCALAR_TYPE = 1 then [.printf "Scalar type: Float64\n"]
   else if b.SCALAR_TYPE = 2 then [.printf "Scalar type: Float32\n"]
   else []) ++
  [ .create_mechanism urdf floating b.SCALAR_TYPE rt.mechanism,
    .assign .mechanism rt.mechanism,
    .create_state rt.mechanism rt.state,
    .assign .state rt.state,
    .create_dynamics_result rt.mechanism rt.result,
    .assign .result rt.result ]

/-- Lines 132-155: state dimensions, work buffers of `result`, input
vectors. -/
def handles (rt : Runtime) : List Event :=
  [ .jl_eval_string "using RigidBodyDynamics",
    .jl_get_function "num_positions" rt.num_positions,
    .jl_call1 rt.num_positions rt.state rt.nq_box,
    .jl_unbox_int64 rt.nq_box rt.nq,
    .jl_get_function "num_velocities" rt.num_velocities,
    .jl_call1 rt.num_velocities rt.state rt.nv_box,
    .jl_unbox_int64 rt.nv_box rt.nv,
    .jl_get_field rt.result "jointwrenches" rt.jointwrenches,
    .jl_get_field rt.result "accelerations" rt.accelerations,
    .jl_get_field rt.result "massmatrix" rt.M,
    .jl_get_field rt.result "v??" rt.vd,
    .jl_get_function "configuration" rt.configuration,
    .jl_get_function "velocity" rt.velocity,
    .jl_get_function "similar" rt.similar,
    .jl_call1 rt.configuration rt.state rt.q,
    .jl_call1 rt.velocity rt.state rt.v,
    .jl_call1 rt.similar rt.v rt.vd_desired,
    .assign .vd_desired rt.vd_desired,
    .jl_call1 rt.similar rt.v rt.tau,
    .assign .tau rt.tau ]

/-- Lines 157-167: the raw arrays, `(T*)jl_array_data(jl_call1(parent, x))`
for `q`, `v`, `vd_desired`, `tau`, `vd`, `M`. -/
def resolve (rt : Runtime) : List Event :=
  [ .jl_get_function "parent" rt.parent,
    .jl_call1 rt.parent rt.q rt.q_parent, .jl_array_data rt.q_parent,
    .jl_call1 rt.parent rt.v rt.v_parent, .jl_array_data rt.v_parent,
    .jl_call1 rt.parent rt.vd_desired rt.vd_desired_parent,
    .jl_array_data rt.vd_desired_parent,
    .jl_call1 rt.parent rt.tau rt.tau_parent, .jl_array_data rt.tau_parent,
    .jl_call1 rt.parent rt.vd rt.vd_parent, .jl_array_data rt.vd_parent,
    .jl_call1 rt.parent rt.M rt.M_parent, .jl_array_data rt.M_parent ]

/-- Lines 179-194: the three dynamics calls, the pop of the GC frame and
the exit hook, which is given `retcode`. -/
def compute (env : Env) (rt : Runtime) : List Event :=
  [ .inverse_dynamics rt.tau rt.jointwrenches rt.accelerations rt.state rt.vd_desired,
    .mass_matrix rt.M rt.state,
    .jl_eval_string "GC.enable(false)",
    .dynamics rt.result rt.state rt.tau,
    .jl_eval_string "GC.enable(true)",
    .JL_GC_POP,
    .jl_atexit_hook env.retcode ]

/-- Lines 94-194 of `main`, for runtime calls that all return. -/
def pipeline (env : Env) (b : Build) (rt : Runtime) (av : List String) (urdf : String)
    (floating : Bool) : List Event :=
  setup b rt av urdf floating ++ handles rt ++ resolve rt ++
    populate rt (toInt rt.nq) (toInt rt.nv) ++ compute env rt

/-- The function `main` of `driver.c`, for runtime calls that all return.
`none` only if the iteration bound of the option loop were too small
(`main_total`: it never is). -/
def main (env : Env) (b : Build) (rt : Runtime) (argv : List String) : Option Run :=
  match parseArgs env.permute argv with
  | none => none
  | some .abort => some { exit := .abort, trace := [] }
  | some (.done l) =>
    match l.urdf with
    | none =>
      some { exit := .abort, trace := [.fprintf_stderr "Must pass in URDF argument (-u)."] }
    | some urdf =>
      match l.csv with
      | none =>
        some { exit := .abort, trace := [.fprintf_stderr "Must pass in CSV argument (-c)."] }
      | some _ =>
        some { exit := .exit 0,
               trace := pipeline env b rt (argvAfterGetopt env.permute "u:fc:" argv) urdf
                 l.floating }

/-- The run in which the call at position `k` of the trace does not
return.  `main` has no handler around any call (no `JL_TRY`, no
`setjmp`), so an error raised inside a precompiled entry point ends the
process inside that call: the trace stops with the call and nothing
after it is executed. -/
def Run.fatalAt (r : Run) (k : Nat) : Run :=
  if k < r.trace.length then { exit := .fatal, trace := r.trace.take (k + 1) } else r

/-! ## Reading the option scan -/

/-- The loop of `getopt` calls on its own: what each call returns, option
character and `optarg`, up to the call that returns `-1`. -/
def scanLoop (permute : Bool) : Nat → GetoptState → List (Char × Option String)
  | 0, _ => []
  | fuel + 1, st =>
    match getopt permute "u:fc:" st with
    | (none, _) => []
    | (some c, st') => (c, st'.optarg) :: scanLoop permute fuel st'

/-- The options of an argument vector, as `getopt` reports them. -/
def optionScan (permute : Bool) (argv : List String) : List (Char × Option String) :=
  scanLoop permute ((getoptInit argv).size + 1) (getoptInit argv)

/-- The option-argument of the last occurrence of option `c`. -/
def lastArg (c : Char) (opts : List (Char × Option String)) : Option String :=
  (opts.filter fun x => x.1 = c).getLast?.bind fun x => x.2

/-- Option `c` occurs among the options. -/
def given (c : Char) (opts : List (Char × Option String)) : Prop :=
  ∃ x ∈ opts, x.1 = c

instance (c : Char) (opts : List (Char × Option String)) : Decidable (given c opts) := by
  unfold given; infer_instance

/-- An argument vector is accepted: `-u` and `-c` are given and `getopt`
reports no unknown option and no missing option-argument. -/
def Accepted (permute : Bool) (argv : List String) : Prop :=
  given 'u' (optionScan permute argv) ∧ given 'c' (optionScan permute argv) ∧
    ¬ given '?' (optionScan permute argv)

instance (permute : Bool) (argv : List String) : Decidable (Accepted permute argv) := by
  unfold Accepted; infer_instance

/-! ## Reading a trace -/

/-- Output through libc, the only events that are not runtime work. -/
def Event.isOutput : Event → Bool
  | .fprintf_stderr _ => true
  | .printf _ => true
  | _ => false

/-- The call of the Model Loader. -/
def Event.isLoader : Event → Bool
  | .create_mechanism _ _ _ _ => true
  | _ => false

/-- The calls of the State/Result factory. -/
def Event.isFactory : Event → Bool
  | .create_state _ _ => true
  | .create_dynamics_result _ _ => true
  | _ => false

/-- The three dynamics calls. -/
def Event.isDynamics : Event → Bool
  | .inverse_dynamics _ _ _ _ _ => true
  | .mass_matrix _ _ => true
  | .dynamics _ _ _ => true
  | _ => false

/-- Taking the raw storage of an unwrapped array, the step that ends a
buffer resolution. -/
def Event.isResolution : Event → Bool
  | .jl_array_data _ => true
  | _ => false

/-- A store through a raw buffer pointer. -/
def Event.isStore : Event → Bool
  | .store _ _ _ => true
  | _ => false

/-- The process start-up hand-over of `argc`/`argv` to libuv. -/
def Event.isSetupArgs : Event → Bool
  | .uv_setup_args _ _ => true
  | _ => false

/-- Evaluation of a source string by the runtime. -/
def Event.isEval : Event → Bool
  | .jl_eval_string _ => true
  | _ => false

/-- Lookups and accessor calls on runtime objects. -/
def Event.isAccessor : Event → Bool
  | .jl_get_function _ _ => true
  | .jl_call1 _ _ _ => true
  | .jl_unbox_int64 _ _ => true
  | .jl_get_field _ _ _ => true
  | .jl_array_data _ => true
  | _ => false

/-- Runtime calls made after start-up that may allocate, hence collect. -/
def Event.mayCollect (e : Event) : Bool :=
  e.isEval || e.isLoader || e.isFactory || e.isAccessor || e.isDynamics

/-- The object handles an event hands to the runtime or dereferences; a
store through a raw pointer uses the array the pointer was taken from. -/
def Event.operands : Event → List Handle
  | .create_state m _ => [m]
  | .create_dynamics_result m _ => [m]
  | .jl_call1 f a _ => [f, a]
  | .jl_unbox_int64 v _ => [v]
  | .jl_get_field o _ _ => [o]
  | .jl_array_data a => [a]
  | .store a _ _ => [a]
  | .inverse_dynamics t j a s d => [t, j, a, s, d]
  | .mass_matrix m s => [m, s]
  | .dynamics r s t => [r, s, t]
  | _ => []

/-- The event uses an object handle or a raw buffer. -/
def Event.usesHandle (e : Event) : Bool := !e.operands.isEmpty

/-- Registration of a GC frame. -/
def Event.isPush : Event → Bool
  | .JL_GC_PUSH5 _ _ _ _ _ => true
  | _ => false

/-- Removal of the newest GC frame. -/
def Event.isPop : Event → Bool
  | .JL_GC_POP => true
  | _ => false

/-- Push, pop, or a store into a local registered in a GC frame. -/
def Event.isRootOp : Event → Bool
  | .JL_GC_PUSH5 _ _ _ _ _ => true
  | .JL_GC_POP => true
  | .assign _ _ => true
  | _ => false

/-- The runtime's finalization hook. -/
def Event.isHook : Event → Bool
  | .jl_atexit_hook _ => true
  | _ => false

/-- The forward-dynamics call. -/
def Event.isForward : Event → Bool
  | .dynamics _ _ _ => true
  | _ => false

/-- The evaluation that switches the collector back on. -/
def Event.isEnable : Event → Bool
  | .jl_eval_string s => s = "GC.enable(true)"
  | _ => false

/-- Runtime start-up: libuv and support library set-up, image selection,
`julia_init`, and pinning BLAS to one thread (lines 96-113). -/
def Event.isInit : Event → Bool
  | .uv_setup_args _ _ => true
  | .libsupport_init => true
  | .set_image_file _ => true
  | .julia_init => true
  | .jl_eval_string s =>
    s = "using RigidBodyDynamics.LinearAlgebra" || s = "BLAS.set_num_threads(1)"
  | _ => false

/-- Every event satisfying `p` comes before every event satisfying `q`. -/
def Precedes (p q : Event → Bool) (tr : List Event) : Prop :=
  ∀ (i j : Nat) (e e' : Event),
    tr[i]? = some e → tr[j]? = some e' → p e = true → q e' = true → i < j

/-- The values of the registered locals of `main`. -/
structure Vars where
  mechanism : Handle
  state : Handle
  result : Handle
  vd_desired : Handle
  tau : Handle
deriving DecidableEq, Repr

/-- Write a registered local. -/
def Vars.set (v : Vars) : Slot → Handle → Vars
  | .mechanism, h => { v with mechanism := h }
  | .state, h => { v with state := h }
  | .result, h => { v with result := h }
  | .vd_desired, h => { v with vd_desired := h }
  | .tau, h => { v with tau := h }

/-- What the collector sees of `main`: whether collection is enabled, the
stack of GC frames (newest first; a frame is a list of registered
locals), the values of those locals, and whether a pop ever found the
stack empty. -/
structure GcState where
  enabled : Bool
  frames : List (List Slot)
  vars : Vars
  underflow : Bool
deriving DecidableEq, Repr

/-- At process start: collection enabled, no frame, the five locals
`NULL` (their initialisers, lines 107-108). -/
def GcState.init : GcState :=
  { enabled := true, frames := [],
    vars := { mechanism := 0, state := 0, result := 0, vd_desired := 0, tau := 0 },
    underflow := false }

/-- The effect of one event on the collector's view. -/
def gcStep (s : GcState) : Event → GcState
  | .JL_GC_PUSH5 a1 a2 a3 a4 a5 => { s with frames := [a1, a2, a3, a4, a5] :: s.frames }
  | .JL_GC_POP =>
    match s.frames with
    | [] => { s with underflow := true }
    | _ :: rest => { s with frames := rest }
  | .assign slot h => { s with vars := s.vars.set slot h }
  | .jl_eval_string str =>
    if str = "GC.enable(false)" then { s with enabled := false }
    else if str = "GC.enable(true)" then { s with enabled := true }
    else s
  | _ => s

/-- Pair every event with the state in which it happens. -/
def annotateFrom {σ : Type} (step : σ → Event → σ) : σ → List Event → List (σ × Event)
  | _, [] => []
  | s, e :: rest => (s, e) :: annotateFrom step (step s e) rest

/-- Every event of a trace with the collector's view at that event. -/
def annotate (tr : List Event) : List (GcState × Event) :=
  annotateFrom gcStep GcState.init tr

/-- The collector's view at the end of a trace. -/
def gcFinal (tr : List Event) : GcState := tr.foldl gcStep GcState.init

/-! ## Native memory -/

/-- Native memory as the stores of `main` see it: the storage of each
array, by array handle. -/
abbrev Mem := Handle → List ℚ

/-- The store `p[i] = val` through the raw pointer `p` of array `arr`;
`none` when `i` is outside the storage (undefined behaviour). -/
def Mem.store (m : Mem) (arr : Handle) (i : Nat) (val : ℚ) : Option Mem :=
  if i < (m arr).length then some (Function.update m arr ((m arr).set i val)) else none

/-- A run used in examples: GNU `getopt`, `retcode` happening to hold 7. -/
def exampleEnv : Env := { permute := true, retcode := 7 }

/-- The same environment with `retcode` happening to hold 0. -/
def exampleEnvZero : Env := { permute := true, retcode := 0 }

/-- A build used in examples: `T` is `double`. -/
def exampleBuild : Build := { SCALAR_TYPE := 1, JULIAC_PROGRAM_LIBNAME := "librbd.so" }

/-- A runtime used in examples: a mechanism with one position and one
velocity, every call returning a handle of its own. -/
def exampleRuntime : Runtime :=
  { mechanism := 101, state := 102, result := 103,
    num_positions := 104, nq_box := 105, nq := 1,
    num_velocities := 106, nv_box := 107, nv := 1,
    jointwrenches := 108, accelerations := 109, M := 110, vd := 111,
    configuration := 112, velocity := 113, similar := 114,
    q := 115, v := 116, vd_desired := 117, tau := 118,
    parent := 119,
    q_parent := 120, v_parent := 121, vd_desired_parent := 122, tau_parent := 123,
    vd_parent := 124, M_parent := 125 }

/-- An accepted argument vector used in examples. -/
def exampleArgv : List String := ["driver", "-u", "arm.urdf", "-c", "in.csv"]

/-! ## Definitions used in the proofs -/

/-- What a call of `getopt` with option string `u:fc:` can return: `?`,
`f`, or `u` / `c` with `optarg` set. -/
def GetoptOk (r : Char × Option String) : Prop :=
  r.1 = '?' ∨ r.1 = 'f' ∨ ((r.1 = 'u' ∨ r.1 = 'c') ∧ r.2.isSome = true)

/-- The scanning state points into the elements `L`: the elements still
to scan are among them, the unscanned characters are the end of one of
them, and `optarg`, when set, is the end of one of them. -/
def Within (L : List String) (st : GetoptState) : Prop :=
  (∀ e ∈ st.args, e ∈ L) ∧
  (st.nextchar = [] ∨ ∃ e ∈ L, st.nextchar <:+ e.toList) ∧
  (∀ a, st.optarg = some a → ∃ e ∈ L, a.toList <:+ e.toList)

/-- The `switch` of lines 71-84 applied to a list of `getopt` results. -/
def switchAll : List (Char × Option String) → Locals → Parse
  | [], l => .done l
  | (c, a) :: rest, l =>
    if c = 'u' then switchAll rest { l with urdf := a }
    else if c = 'f' then switchAll rest { l with floating := true }
    else if c = 'c' then switchAll rest { l with csv := a }
    else .abort

/-- Boolean check of `Precedes`: at an event satisfying `q`, neither it
nor any later event satisfies `p`. -/
def precedesB (p q : Event → Bool) : List Event → Bool
  | [] => true
  | e :: rest => (!q e || (!p e && rest.all fun e' => !p e')) && precedesB p q rest

/-- The collector's view from the last input vector on (line 155) up to
the dynamics calls: collection enabled, one frame, the five locals
holding their handles. -/
def midState (rt : Runtime) : GcState :=
  { enabled := true,
    frames := [[.mechanism, .state, .result, .vd_desired, .tau]],
    vars := { mechanism := rt.mechanism, state := rt.state, result := rt.result,
              vd_desired := rt.vd_desired, tau := rt.tau },
    underflow := false }

/-- Everything `main` does before the first dynamics call. -/
def prelude (b : Build) (rt : Runtime) (av : List String) (u : String) (f : Bool) : List Event :=
  setup b rt av u f ++ handles rt ++ resolve rt ++ populate rt (toInt rt.nq) (toInt rt.nv)

/-- The run in which the forward-dynamics call fails: the process ends
inside `dynamics(result, state, tau)`. -/
def Run.forwardFails (r : Run) : Run := r.fatalAt (r.trace.findIdx Event.isForward)

/-- Root scoping of a trace as far as it goes: no pop finds the stack
empty, at most one frame is pushed, the push comes before every
collecting call, no pop comes before a collecting call or a use, and the
frame of the five locals is registered at every collecting call and at
every use. -/
def Scoped (tr : List Event) : Prop :=
  (∀ x ∈ annotate tr, x.1.underflow = false) ∧
  (gcFinal tr).underflow = false ∧
  (tr.filter Event.isPush).length ≤ 1 ∧
  Precedes Event.isPush Event.mayCollect tr ∧
  Precedes (fun e => e.mayCollect || e.usesHandle) Event.isPop tr ∧
  (∀ x ∈ annotate tr, (x.2.mayCollect || x.2.usesHandle) = true →
    x.1.frames = [[.mechanism, .state, .result, .vd_desired, .tau]])

theorem scanChar_size {s : String} {c : Char} {cs : List Char} {args : List String}
    {r : Option Char} {st : GetoptState} (h : scanChar s c cs args = (r, st)) :
    st.size < 1 + cs.length + (args.map fun a => a.length + 1).sum := by
  unfold scanChar at h
  split at h
  · cases h; simp only [GetoptState.size]; omega
  · cases h; simp only [GetoptState.size]; omega
  · split at h
    · cases h; simp only [GetoptState.size, List.length_nil, List.length_cons]; omega
    · split at h
      · cases h
        simp only [GetoptState.size, List.length_nil, List.map_cons, List.sum_cons]; omega
      · cases h
        simp only [GetoptState.size, List.length_nil, List.map_nil, List.sum_nil]; omega

theorem advance_size {p : Bool} {s : String} {args : List String} {c : Char}
    {st : GetoptState} (h : advance p s args = (some c, st)) :
    st.size < (args.map fun a => a.length + 1).sum := by
  induction args with
  | nil => simp [advance] at h
  | cons a rest ih =>
    unfold advance at h
    split at h
    · cases h
    · rename_i c' cs _ heq
      have := scanChar_size h
      have hl : a.length = cs.length + 2 := by
        simp only [String.length]; rw [show a.data = a.toList from rfl, heq]; rfl
      simp only [List.map_cons, List.sum_cons, hl]; omega
    · split at h
      · have := ih h
        simp only [List.map_cons, List.sum_cons]; omega
      · cases h

theorem getopt_size {p : Bool} {s : String} {st st' : GetoptState} {c : Char}
    (h : getopt p s st = (some c, st')) : st'.size < st.size := by
  unfold getopt at h
  split at h
  · rename_i c' cs heq
    have := scanChar_size h
    simp only [GetoptState.size, heq, List.length_cons] at this ⊢; omega
  · rename_i heq
    have := advance_size h
    simp only [GetoptState.size, heq, List.length_nil] at this ⊢; omega

theorem permuted_perm (s : String) (n : Nat) :
    ∀ l : List String, l.length ≤ n → ((permuted s l).1 ++ (permuted s l).2).Perm l := by
  induction n with
  | zero =>
    intro l hl
    cases l with
    | nil => simp [permuted]
    | cons a rest => simp at hl
  | succ n ih =>
    intro l hl
    match l with
    | [] => simp [permuted]
    | [a] =>
      simp only [permuted]
      split <;> simp
    | a :: b :: rest =>
      have h1 : (b :: rest).length ≤ n := by simpa using hl
      have h2 : rest.length ≤ n := by simp at h1; omega
      simp only [permuted]
      split
      · exact List.Perm.refl _
      · exact ((ih rest h2).cons b).cons a
      · exact (ih (b :: rest) h1).cons a
      · exact List.perm_middle.trans ((ih (b :: rest) h1).cons a)

theorem argvAfterGetopt_perm (p : Bool) (s : String) (argv : List String) :
    (argvAfterGetopt p s argv).Perm argv := by
  unfold argvAfterGetopt
  split
  · cases argv with
    | nil => exact List.Perm.refl _
    | cons a rest => exact (permuted_perm s _ rest (Nat.le_refl _)).cons a
  · exact List.Perm.refl _

theorem argvAfterGetopt_length (p : Bool) (s : String) (argv : List String) :
    (argvAfterGetopt p s argv).length = argv.length :=
  (argvAfterGetopt_perm p s argv).length_eq

theorem scanChar_within {L : List String} {s : String} {c : Char} {cs : List Char}
    {args : List String} {r : Option Char} {st : GetoptState}
    (h : scanChar s c cs args = (r, st)) (hargs : ∀ e ∈ args, e ∈ L)
    (hcs : ∃ e ∈ L, (c :: cs) <:+ e.toList) : Within L st := by
  obtain ⟨e, he, hsuf⟩ := hcs
  have hcs' : cs <:+ e.toList := (List.suffix_cons c cs).trans hsuf
  unfold scanChar at h
  split at h
  · cases h; exact ⟨hargs, Or.inr ⟨e, he, hcs'⟩, fun a ha => by cases ha⟩
  · cases h; exact ⟨hargs, Or.inr ⟨e, he, hcs'⟩, fun a ha => by cases ha⟩
  · split at h
    · cases h
      refine ⟨hargs, Or.inl rfl, fun a ha => ?_⟩
      cases ha
      exact ⟨e, he, hcs'⟩
    · split at h
      · cases h
        rename_i a rest
        refine ⟨fun x hx => hargs x (List.mem_cons_of_mem _ hx), Or.inl rfl, fun a' ha => ?_⟩
        cases ha
        exact ⟨a, hargs a (List.mem_cons_self _ _), List.suffix_refl _⟩
      · cases h; exact ⟨fun x hx => (by cases hx), Or.inl rfl, fun a ha => by cases ha⟩

theorem advance_within {L : List String} {p : Bool} {s : String} {args : List String}
    {r : Option Char} {st : GetoptState}
    (h : advance p s args = (r, st)) (hargs : ∀ e ∈ args, e ∈ L) : Within L st := by
  induction args with
  | nil =>
    simp only [advance] at h
    cases h
    exact ⟨fun x hx => (by cases hx), Or.inl rfl, fun a ha => by cases ha⟩
  | cons a rest ih =>
    have hrest : ∀ e ∈ rest, e ∈ L := fun x hx => hargs x (List.mem_cons_of_mem _ hx)
    unfold advance at h
    split at h
    · cases h; exact ⟨hrest, Or.inl rfl, fun a ha => by cases ha⟩
    · rename_i c cs _ heq
      refine scanChar_within h hrest ⟨a, hargs a (List.mem_cons_self _ _), ?_⟩
      rw [heq]
      exact List.suffix_cons _ _
    · split at h
      · exact ih h hrest
      · cases h; exact ⟨hargs, Or.inl rfl, fun a ha => by cases ha⟩

theorem getopt_within {L : List String} {p : Bool} {s : String} {st st' : GetoptState}
    {r : Option Char} (h : getopt p s st = (r, st')) (hw : Within L st) : Within L st' := by
  unfold getopt at h
  split at h
  · rename_i c cs heq
    rcases hw.2.1 with hnil | hsuf
    · rw [heq] at hnil; cases hnil
    · rw [heq] at hsuf
      exact scanChar_within h hw.1 hsuf
  · exact advance_within h hw.1

theorem scanLoop_within {L : List String} (p : Bool) (fuel : Nat) (st : GetoptState)
    (hw : Within L st) :
    ∀ x ∈ scanLoop p fuel st, ∀ a, x.2 = some a → ∃ e ∈ L, a.toList <:+ e.toList := by
  induction fuel generalizing st with
  | zero => simp [scanLoop]
  | succ n ih =>
    unfold scanLoop
    split
    · simp
    · rename_i c st' heq
      have hw' := getopt_within heq hw
      intro x hx
      rcases List.mem_cons.1 hx with rfl | hx
      · exact hw'.2.2
      · exact ih st' hw' x hx

theorem lastArg_within (p : Bool) (argv : List String) (c : Char) (a : String)
    (h : lastArg c (optionScan p argv) = some a) :
    ∃ e ∈ argvAfterGetopt p "u:fc:" argv, a.toList <:+ e.toList := by
  unfold lastArg at h
  obtain ⟨x, hx, hxa⟩ := Option.bind_eq_some.1 h
  have hmem := (List.mem_filter.1 (List.mem_of_getLast?_eq_some hx)).1
  have hw : Within argv.tail (getoptInit argv) :=
    ⟨fun e he => he, Or.inl rfl, fun a ha => by cases ha⟩
  obtain ⟨e, he, hsuf⟩ := scanLoop_within p _ _ hw x hmem a hxa
  exact ⟨e, (argvAfterGetopt_perm p "u:fc:" argv).mem_iff.2 (List.mem_of_mem_tail he), hsuf⟩

theorem parseLoop_total (p : Bool) (fuel : Nat) (st : GetoptState) (l : Locals)
    (h : st.size < fuel) : ∃ r, parseLoop p fuel st l = some r := by
  induction fuel generalizing st l with
  | zero => omega
  | succ n ih =>
    unfold parseLoop
    split
    · exact ⟨_, rfl⟩
    · rename_i c st' heq
      have hs := getopt_size heq
      split
      · exact ih _ _ (by omega)
      · split
        · exact ih _ _ (by omega)
        · split
          · exact ih _ _ (by omega)
          · exact ⟨_, rfl⟩

theorem optSpec_ufc (c : Char) :
    optSpec "u:fc:".toList c =
      if c = 'u' then some true else if c = 'f' then some false
      else if c = 'c' then some true else none := by
  rw [show "u:fc:".toList = ['u', ':', 'f', 'c', ':'] from rfl]
  by_cases h1 : c = 'u'
  · subst h1; rfl
  · by_cases h2 : c = 'f'
    · subst h2; rfl
    · by_cases h3 : c = 'c'
      · subst h3; rfl
      · have h4 : ¬ (':' = c ∧ ¬ c = ':') := fun h => h.2 h.1.symm
        simp [optSpec, h1, h2, h3, Ne.symm h1, Ne.symm h2, Ne.symm h3, h4]

theorem scanChar_ok {c : Char} {cs : List Char} {args : List String} {r : Char}
    {st : GetoptState} (h : scanChar "u:fc:" c cs args = (some r, st)) :
    GetoptOk (r, st.optarg) := by
  unfold scanChar at h
  rw [optSpec_ufc] at h
  by_cases h1 : c = 'u'
  · subst h1
    simp only [if_true] at h
    split at h
    · cases h; simp [GetoptOk]
    · split at h
      · cases h; simp [GetoptOk]
      · cases h; simp [GetoptOk]
  · by_cases h2 : c = 'f'
    · subst h2
      simp only [if_neg h1, if_true] at h
      cases h; simp [GetoptOk]
    · by_cases h3 : c = 'c'
      · subst h3
        simp only [if_neg h1, if_neg h2, if_true] at h
        split at h
        · cases h; simp [GetoptOk]
        · split at h
          · cases h; simp [GetoptOk]
          · cases h; simp [GetoptOk]
      · simp only [if_neg h1, if_neg h2, if_neg h3] at h
        cases h; simp [GetoptOk]

theorem advance_ok {p : Bool} {args : List String} {r : Char} {st : GetoptState}
    (h : advance p "u:fc:" args = (some r, st)) : GetoptOk (r, st.optarg) := by
  induction args with
  | nil => simp [advance] at h
  | cons a rest ih =>
    unfold advance at h
    split at h
    · cases h
    · exact scanChar_ok h
    · split at h
      · exact ih h
      · cases h

theorem getopt_ok {p : Bool} {st st' : GetoptState} {r : Char}
    (h : getopt p "u:fc:" st = (some r, st')) : GetoptOk (r, st'.optarg) := by
  unfold getopt at h
  split at h
  · exact scanChar_ok h
  · exact advance_ok h

theorem scanLoop_ok (p : Bool) (fuel : Nat) (st : GetoptState) :
    ∀ x ∈ scanLoop p fuel st, GetoptOk x := by
  induction fuel generalizing st with
  | zero => simp [scanLoop]
  | succ n ih =>
    unfold scanLoop
    split
    · simp
    · rename_i c st' heq
      intro x hx
      rcases List.mem_cons.1 hx with rfl | hx
      · exact getopt_ok heq
      · exact ih _ _ hx

theorem optionScan_ok (p : Bool) (argv : List String) : ∀ x ∈ optionScan p argv, GetoptOk x :=
  scanLoop_ok p _ _

theorem parseLoop_eq_switchAll (p : Bool) (fuel : Nat) (st : GetoptState) (l : Locals)
    (h : st.size < fuel) :
    parseLoop p fuel st l = some (switchAll (scanLoop p fuel st) l) := by
  induction fuel generalizing st l with
  | zero => omega
  | succ n ih =>
    unfold parseLoop scanLoop
    split
    · rename_i heq; simp [heq, switchAll]
    · rename_i c st' heq
      have hs := getopt_size heq
      simp only [heq, switchAll]
      split
      · exact ih _ _ (by omega)
      · split
        · exact ih _ _ (by omega)
        · split
          · exact ih _ _ (by omega)
          · rfl

theorem parseArgs_eq_switchAll (p : Bool) (argv : List String) :
    parseArgs p argv =
      some (switchAll (optionScan p argv) { urdf := none, floating := false, csv := none }) :=
  parseLoop_eq_switchAll p _ _ _ (Nat.lt_succ_self _)

theorem switchAll_abort {opts : List (Char × Option String)} (l : Locals)
    (h : ∃ x ∈ opts, x.1 ≠ 'u' ∧ x.1 ≠ 'f' ∧ x.1 ≠ 'c') : switchAll opts l = .abort := by
  induction opts generalizing l with
  | nil => simp at h
  | cons y rest ih =>
    obtain ⟨c, a⟩ := y
    unfold switchAll
    by_cases hy : c ≠ 'u' ∧ c ≠ 'f' ∧ c ≠ 'c'
    · simp [hy.1, hy.2.1, hy.2.2]
    · have hr : ∃ x ∈ rest, x.1 ≠ 'u' ∧ x.1 ≠ 'f' ∧ x.1 ≠ 'c' := by
        obtain ⟨x, hx, hx'⟩ := h
        rcases List.mem_cons.1 hx with rfl | hx
        · exact absurd hx' hy
        · exact ⟨x, hx, hx'⟩
      split
      · exact ih _ hr
      · split
        · exact ih _ hr
        · split
          · exact ih _ hr
          · rfl

theorem given_cons {c d : Char} {a : Option String} {rest : List (Char × Option String)} :
    given c ((d, a) :: rest) ↔ d = c ∨ given c rest := by
  simp [given]

theorem given_iff_filter {c : Char} {opts : List (Char × Option String)} :
    given c opts ↔ (opts.filter fun x => x.1 = c) ≠ [] := by
  simp [given, List.filter_eq_nil_iff]

theorem lastArg_cons (c d : Char) (a : Option String) (rest : List (Char × Option String)) :
    lastArg c ((d, a) :: rest) =
      if given c rest then lastArg c rest else if d = c then a else none := by
  by_cases hg : given c rest
  · have hne := given_iff_filter.1 hg
    obtain ⟨y, hy⟩ := Option.isSome_iff_exists.1 (List.getLast?_isSome.2 hne)
    by_cases hd : d = c
    · simp [lastArg, List.filter_cons, hd, hg, List.getLast?_cons, hy]
    · simp [lastArg, List.filter_cons, hd, hg]
  · have he : (rest.filter fun x => x.1 = c) = [] := by
      by_contra hne; exact hg (given_iff_filter.2 hne)
    by_cases hd : d = c
    · simp [lastArg, List.filter_cons, hd, hg, he]
    · simp [lastArg, List.filter_cons, hd, hg, he]

theorem switchAll_done {opts : List (Char × Option String)} (l : Locals)
    (h : ∀ x ∈ opts, x.1 = 'u' ∨ x.1 = 'f' ∨ x.1 = 'c') :
    switchAll opts l = .done
      { urdf := if given 'u' opts then lastArg 'u' opts else l.urdf,
        floating := l.floating || decide (given 'f' opts),
        csv := if given 'c' opts then lastArg 'c' opts else l.csv } := by
  induction opts generalizing l with
  | nil => simp [switchAll, given]
  | cons y rest ih =>
    obtain ⟨c, a⟩ := y
    have hr : ∀ x ∈ rest, x.1 = 'u' ∨ x.1 = 'f' ∨ x.1 = 'c' :=
      fun x hx => h x (List.mem_cons_of_mem _ hx)
    have hc := h (c, a) (List.mem_cons_self _ _)
    unfold switchAll
    simp only [lastArg_cons, given_cons]
    rcases hc with hc | hc | hc <;> simp only at hc <;> subst hc
    · rw [if_pos rfl, ih _ hr]
      by_cases h1 : given 'u' rest <;> by_cases h2 : given 'c' rest <;> simp [h1, h2]
    · rw [if_neg (by decide), if_pos rfl, ih _ hr]
      by_cases h1 : given 'u' rest <;> by_cases h2 : given 'c' rest <;> simp [h1, h2]
    · rw [if_neg (by decide), if_neg (by decide), if_pos rfl, ih _ hr]
      by_cases h1 : given 'u' rest <;> by_cases h2 : given 'c' rest <;> simp [h1, h2]

theorem parseArgs_total (p : Bool) (argv : List String) : ∃ r, parseArgs p argv = some r :=
  parseLoop_total p _ _ _ (Nat.lt_succ_self _)

theorem main_of_abort {env : Env} {b : Build} {rt : Runtime} {argv : List String}
    (h : parseArgs env.permute argv = some .abort) :
    main env b rt argv = some { exit := .abort, trace := [] } := by
  simp [main, h]

theorem main_of_no_urdf {env : Env} {b : Build} {rt : Runtime} {argv : List String}
    {l : Locals} (h : parseArgs env.permute argv = some (.done l)) (hu : l.urdf = none) :
    main env b rt argv =
      some { exit := .abort, trace := [.fprintf_stderr "Must pass in URDF argument (-u)."] } := by
  simp [main, h, hu]

theorem main_of_no_csv {env : Env} {b : Build} {rt : Runtime} {argv : List String}
    {l : Locals} {u : String} (h : parseArgs env.permute argv = some (.done l))
    (hu : l.urdf = some u) (hc : l.csv = none) :
    main env b rt argv =
      some { exit := .abort, trace := [.fprintf_stderr "Must pass in CSV argument (-c)."] } := by
  simp [main, h, hu, hc]

theorem main_of_accepted {env : Env} {b : Build} {rt : Runtime} {argv : List String}
    {l : Locals} {u c : String} (h : parseArgs env.permute argv = some (.done l))
    (hu : l.urdf = some u) (hc : l.csv = some c) :
    main env b rt argv =
      some { exit := .exit 0, trace := pipeline env b rt (argvAfterGetopt env.permute "u:fc:" argv) u l.floating } := by
  simp [main, h, hu, hc]

/-- `main` always ends: the iteration bound of the option loop is never
reached. -/
theorem main_total (env : Env) (b : Build) (rt : Runtime) (argv : List String) :
    ∃ r, main env b rt argv = some r := by
  obtain ⟨r, hr⟩ := parseArgs_total env.permute argv
  cases r with
  | abort => exact ⟨_, main_of_abort hr⟩
  | done l =>
    cases hu : l.urdf with
    | none => exact ⟨_, main_of_no_urdf hr hu⟩
    | some u =>
      cases hc : l.csv with
      | none => exact ⟨_, main_of_no_csv hr hu hc⟩
      | some c => exact ⟨_, main_of_accepted hr hu hc⟩

/-! ## Configuration errors -/

theorem parseArgs_abort {p : Bool} {argv : List String}
    (hq : given '?' (optionScan p argv)) : parseArgs p argv = some .abort := by
  obtain ⟨x, hx, hx'⟩ := hq
  rw [parseArgs_eq_switchAll, switchAll_abort _ ⟨x, hx, by rw [hx']; decide⟩]

theorem parseArgs_done {p : Bool} {argv : List String}
    (hq : ¬ given '?' (optionScan p argv)) :
    parseArgs p argv = some (.done
      { urdf := if given 'u' (optionScan p argv) then lastArg 'u' (optionScan p argv) else none,
        floating := decide (given 'f' (optionScan p argv)),
        csv := if given 'c' (optionScan p argv) then lastArg 'c' (optionScan p argv)
          else none }) := by
  have hall : ∀ x ∈ optionScan p argv, x.1 = 'u' ∨ x.1 = 'f' ∨ x.1 = 'c' := by
    intro x hx
    rcases optionScan_ok p argv x hx with h1 | h1 | ⟨h1 | h1, _⟩
    · exact absurd ⟨x, hx, h1⟩ hq
    · exact Or.inr (Or.inl h1)
    · exact Or.inl h1
    · exact Or.inr (Or.inr h1)
  rw [parseArgs_eq_switchAll, switchAll_done _ hall]
  simp

theorem lastArg_of_given {p : Bool} {argv : List String} {c : Char}
    (hc : c = 'u' ∨ c = 'c') (hg : given c (optionScan p argv)) :
    ∃ u, lastArg c (optionScan p argv) = some u := by
  have hne := given_iff_filter.1 hg
  obtain ⟨y, hy⟩ := Option.isSome_iff_exists.1 (List.getLast?_isSome.2 hne)
  have hmem := List.mem_of_getLast?_eq_some hy
  rw [List.mem_filter] at hmem
  have hy1 : y.1 = c := by simpa using hmem.2
  have hsome : y.2.isSome = true := by
    rcases optionScan_ok p argv y hmem.1 with h1 | h1 | ⟨_, h2⟩
    · rw [hy1] at h1; rcases hc with hc | hc <;> rw [hc] at h1 <;> exact absurd h1 (by decide)
    · rw [hy1] at h1; rcases hc with hc | hc <;> rw [hc] at h1 <;> exact absurd h1 (by decide)
    · exact h2
  obtain ⟨u, hu⟩ := Option.isSome_iff_exists.1 hsome
  exact ⟨u, by simp [lastArg, hy, hu]⟩

/-- The run of `main` on an accepted argument vector. -/
theorem main_accepted (env : Env) (b : Build) (rt : Runtime) (argv : List String)
    (h : Accepted env.permute argv) :
    ∃ u, lastArg 'u' (optionScan env.permute argv) = some u ∧
      main env b rt argv = some { exit := .exit 0,
                                  trace := pipeline env b rt (argvAfterGetopt env.permute "u:fc:" argv) u
                                    (decide (given 'f' (optionScan env.permute argv))) } := by
  obtain ⟨hu, hc, hq⟩ := h
  obtain ⟨u, hu'⟩ := lastArg_of_given (Or.inl rfl) hu
  obtain ⟨c, hc'⟩ := lastArg_of_given (Or.inr rfl) hc
  refine ⟨u, hu', ?_⟩
  simp only [main, parseArgs_done hq, if_pos hu, if_pos hc, hu', hc']

/-- C1 as stated fails: with argument vector `driver -x` the option `-u`
is missing and `main` aborts, yet nothing is written to the error
stream. -/
theorem C1_counterexample :
    ¬ given 'u' (optionScan exampleEnv.permute ["driver", "-x"]) ∧
    ∃ r, main exampleEnv exampleBuild exampleRuntime ["driver", "-x"] = some r ∧
      r.exit = .abort ∧ ∀ msg, Event.fprintf_stderr msg ∉ r.trace := by
  refine ⟨by decide, ⟨{ exit := .abort, trace := [] }, by decide, rfl, ?_⟩⟩
  intro msg h
  cases h

/-- C1 amended: when `-u` or `-c` is missing, `main` aborts and the trace
holds no runtime event at all (nothing but libc output); when moreover
the option scan reports no unknown option, the trace is exactly one
message on the error stream, the URDF message if `-u` is missing and the
CSV message otherwise; when it reports one, the trace is empty. -/
theorem C1_missing_required_aborts (env : Env) (b : Build) (rt : Runtime)
    (argv : List String)
    (h : ¬ given 'u' (optionScan env.permute argv) ∨ ¬ given 'c' (optionScan env.permute argv)) :
    ∃ r, main env b rt argv = some r ∧ r.exit = .abort ∧
      (∀ e ∈ r.trace, e.isOutput = true) ∧
      (¬ given '?' (optionScan env.permute argv) →
        r.trace = [.fprintf_stderr
          (if given 'u' (optionScan env.permute argv) then "Must pass in CSV argument (-c)."
           else "Must pass in URDF argument (-u).")]) ∧
      (given '?' (optionScan env.permute argv) → r.trace = []) := by
  by_cases hq : given '?' (optionScan env.permute argv)
  · exact ⟨_, main_of_abort (parseArgs_abort hq), rfl, by simp, fun h' => absurd hq h',
      fun _ => rfl⟩
  · have hp := parseArgs_done hq
    by_cases hu : given 'u' (optionScan env.permute argv)
    · have hc : ¬ given 'c' (optionScan env.permute argv) := h.resolve_left (not_not.2 hu)
      obtain ⟨u, hu'⟩ := lastArg_of_given (Or.inl rfl) hu
      refine ⟨_, main_of_no_csv (u := u) hp ?_ ?_, rfl, by simp [Event.isOutput], ?_,
        fun h' => absurd h' hq⟩
      · simp [hu, hu']
      · simp [hc]
      · intro _; simp [hu]
    · refine ⟨_, main_of_no_urdf hp ?_, rfl, by simp [Event.isOutput], ?_,
        fun h' => absurd h' hq⟩
      · simp [hu]
      · intro _; simp [hu]

/-- C1 amended, at `driver -f -c in.csv`: `-u` is missing and the URDF
message is the whole trace. -/
theorem C1_missing_required_aborts_witness :
    (¬ given 'u' (optionScan exampleEnv.permute ["driver", "-f", "-c", "in.csv"]) ∨
      ¬ given 'c' (optionScan exampleEnv.permute ["driver", "-f", "-c", "in.csv"])) ∧
    ∃ r, main exampleEnv exampleBuild exampleRuntime ["driver", "-f", "-c", "in.csv"] = some r ∧
      r.exit = .abort ∧ (∀ e ∈ r.trace, e.isOutput = true) ∧
      (¬ given '?' (optionScan exampleEnv.permute ["driver", "-f", "-c", "in.csv"]) →
        r.trace = [.fprintf_stderr
          (if given 'u' (optionScan exampleEnv.permute ["driver", "-f", "-c", "in.csv"])
           then "Must pass in CSV argument (-c)." else "Must pass in URDF argument (-u).")]) ∧
      (given '?' (optionScan exampleEnv.permute ["driver", "-f", "-c", "in.csv"]) →
        r.trace = []) :=
  ⟨by decide, C1_missing_required_aborts exampleEnv exampleBuild exampleRuntime
    ["driver", "-f", "-c", "in.csv"] (by decide)⟩

/-- C2: when `getopt` reports an unknown option or a missing
option-argument (`?`), `main` aborts in the option loop: the trace is
empty, so nothing of the runtime has been started or invoked. -/
theorem C2_unknown_option_aborts (env : Env) (b : Build) (rt : Runtime) (argv : List String)
    (h : given '?' (optionScan env.permute argv)) :
    main env b rt argv = some { exit := .abort, trace := [] } :=
  main_of_abort (parseArgs_abort h)

/-- C2 at `driver -u arm.urdf -x -c in.csv`: the unknown `-x` aborts the
run with an empty trace. -/
theorem C2_unknown_option_aborts_witness :
    given '?' (optionScan exampleEnv.permute ["driver", "-u", "arm.urdf", "-x", "-c", "in.csv"]) ∧
    main exampleEnv exampleBuild exampleRuntime
      ["driver", "-u", "arm.urdf", "-x", "-c", "in.csv"] = some { exit := .abort, trace := [] } :=
  ⟨by decide, C2_unknown_option_aborts exampleEnv exampleBuild exampleRuntime
    ["driver", "-u", "arm.urdf", "-x", "-c", "in.csv"] (by decide)⟩

/-! ## The pipeline -/

theorem populate_isStore (rt : Runtime) (nq nv : Int) :
    ∀ e ∈ populate rt nq nv, e.isStore = true := by
  intro e he
  simp only [populate, forLoop, List.mem_append, List.mem_flatMap] at he
  rcases he with ⟨i, _, hi⟩ | ⟨i, _, hi⟩
  · simp at hi; subst hi; rfl
  · simp at hi; rcases hi with rfl | rfl | rfl <;> rfl

theorem filter_populate (rt : Runtime) (nq nv : Int) (P : Event → Bool)
    (hP : ∀ e, e.isStore = true → P e = false) : (populate rt nq nv).filter P = [] := by
  rw [List.filter_eq_nil_iff]
  intro e he
  simp [hP e (populate_isStore rt nq nv e he)]

theorem filter_pipeline (env : Env) (b : Build) (rt : Runtime) (av : List String) (u : String)
    (f : Bool) (P : Event → Bool) (hP : ∀ e, e.isStore = true → P e = false) :
    (pipeline env b rt av u f).filter P =
      (setup b rt av u f ++ handles rt ++ resolve rt ++ compute env rt).filter P := by
  simp only [pipeline, List.filter_append, filter_populate _ _ _ P hP, List.append_nil]

theorem precedesB_sound {p q : Event → Bool} {tr : List Event} (h : precedesB p q tr = true) :
    Precedes p q tr := by
  induction tr with
  | nil => intro i j e e' hi; simp at hi
  | cons a rest ih =>
    simp only [precedesB, Bool.and_eq_true, Bool.or_eq_true, Bool.not_eq_true',
      List.all_eq_true] at h
    obtain ⟨h1, h2⟩ := h
    intro i j e e' hi hj hp hq
    cases j with
    | zero =>
      simp only [List.getElem?_cons_zero, Option.some.injEq] at hj
      subst hj
      rcases h1 with h1 | ⟨h1, h3⟩
      · rw [h1] at hq; cases hq
      · cases i with
        | zero =>
          simp only [List.getElem?_cons_zero, Option.some.injEq] at hi
          subst hi; rw [h1] at hp; cases hp
        | succ i =>
          simp only [List.getElem?_cons_succ] at hi
          have := h3 e (List.getElem?_mem hi)
          rw [hp] at this; cases this
    | succ j =>
      cases i with
      | zero => omega
      | succ i =>
        simp only [List.getElem?_cons_succ] at hi hj
        have := ih h2 i j e e' hi hj hp hq
        omega

theorem precedesB_append (p q : Event → Bool) (A B : List Event) :
    precedesB p q (A ++ B) =
      (precedesB p q A && precedesB p q B && (!A.any q || B.all fun e => !p e)) := by
  induction A with
  | nil => simp [precedesB]
  | cons a rest ih =>
    have e1 : precedesB p q (a :: rest ++ B) =
        ((!q a || (!p a && (rest ++ B).all fun e' => !p e')) && precedesB p q (rest ++ B)) := rfl
    have e2 : precedesB p q (a :: rest) =
        ((!q a || (!p a && rest.all fun e' => !p e')) && precedesB p q rest) := rfl
    rw [e1, e2, ih, List.all_append, List.any_cons]
    generalize (rest.all fun e' => !p e') = x
    generalize (B.all fun e' => !p e') = y
    generalize precedesB p q rest = z
    generalize precedesB p q B = w
    generalize rest.any q = v
    cases q a <;> cases p a <;> cases x <;> cases y <;> cases z <;> cases w <;> cases v <;> rfl

theorem precedesB_of_no_q (p q : Event → Bool) (l : List Event) (h : ∀ e ∈ l, q e = false) :
    precedesB p q l = true := by
  induction l with
  | nil => rfl
  | cons a rest ih =>
    simp only [precedesB, h a (List.mem_cons_self _ _), Bool.not_false, Bool.true_or,
      Bool.true_and]
    exact ih fun e he => h e (List.mem_cons_of_mem _ he)

theorem precedes_of_split {p q : Event → Bool} {tr A B : List Event} (h : tr = A ++ B)
    (hA : ∀ e ∈ A, q e = false) (hB : ∀ e ∈ B, p e = false) : Precedes p q tr := by
  subst h
  intro i j e e' hi hj hp hq
  by_contra hlt
  have hiB : A.length ≤ i := by
    by_contra hlt'
    have hjA : j < A.length := by omega
    rw [List.getElem?_append_left hjA] at hj
    have := hA e' (List.getElem?_mem hj)
    rw [this] at hq; cases hq
  rw [List.getElem?_append_right hiB] at hi
  have := hB e (List.getElem?_mem hi)
  rw [this] at hp; cases hp

theorem gcStep_store (s : GcState) {e : Event} (h : e.isStore = true) : gcStep s e = s := by
  cases e <;> first | rfl | cases h

theorem foldl_gcStep_stores (s : GcState) (l : List Event) (h : ∀ e ∈ l, e.isStore = true) :
    l.foldl gcStep s = s := by
  induction l with
  | nil => rfl
  | cons e rest ih =>
    rw [List.foldl_cons, gcStep_store s (h e (List.mem_cons_self _ _))]
    exact ih fun e he => h e (List.mem_cons_of_mem _ he)

theorem annotateFrom_append {σ : Type} (step : σ → Event → σ) (s : σ) (A B : List Event) :
    annotateFrom step s (A ++ B) =
      annotateFrom step s A ++ annotateFrom step (A.foldl step s) B := by
  induction A generalizing s with
  | nil => rfl
  | cons e rest ih => simp [annotateFrom, ih]

theorem annotateFrom_stores (s : GcState) (l : List Event) (h : ∀ e ∈ l, e.isStore = true) :
    annotateFrom gcStep s l = l.map fun e => (s, e) := by
  induction l with
  | nil => rfl
  | cons e rest ih =>
    simp only [annotateFrom, List.map_cons, gcStep_store s (h e (List.mem_cons_self _ _))]
    rw [ih fun e he => h e (List.mem_cons_of_mem _ he)]

theorem annotateFrom_populate (s : GcState) (rt : Runtime) (nq nv : Int) (rest : List Event) :
    annotateFrom gcStep s (populate rt nq nv ++ rest) =
      ((populate rt nq nv).map fun e => (s, e)) ++ annotateFrom gcStep s rest := by
  rw [annotateFrom_append, annotateFrom_stores _ _ (populate_isStore rt nq nv),
    foldl_gcStep_stores _ _ (populate_isStore rt nq nv)]

/-- C3 as stated fails: in the run on `exampleArgv` the `-c` path is
`in.csv`, and `uv_setup_args(argc, argv)` (line 96) is handed the
argument vector that holds it. -/
theorem C3_counterexample :
    ∃ r, main exampleEnv exampleBuild exampleRuntime exampleArgv = some r ∧
      lastArg 'c' (optionScan exampleEnv.permute exampleArgv) = some "in.csv" ∧
      ∃ n av, Event.uv_setup_args n av ∈ r.trace ∧ "in.csv" ∈ av :=
  ⟨⟨.exit 0, pipeline exampleEnv exampleBuild exampleRuntime exampleArgv "arm.urdf" false⟩,
    rfl, by decide, 5, exampleArgv, List.mem_cons_self _ _, by decide⟩

/-- C3 amended: on an accepted argument vector the Model Loader is called
exactly once, with the argument of the last `-u`, a floating flag that is
true exactly when `-f` is given, and the build's `SCALAR_TYPE`.  The `-c`
path reaches the runtime in one call only: `uv_setup_args` is called
once, with `argc` and the whole argument vector as `getopt` left it (the
same elements as `argv`), in which the `-c` path is an element or the end
of one; the other events of the run are the same for every accepted
argument vector with that `-u` argument and that presence of `-f`,
whatever its `-c` path. -/
theorem C3_model_loader_call (env : Env) (b : Build) (rt : Runtime) (argv : List String)
    (h : Accepted env.permute argv) :
    ∃ r u, main env b rt argv = some r ∧ r.exit = .exit 0 ∧
      lastArg 'u' (optionScan env.permute argv) = some u ∧
      r.trace.filter Event.isLoader =
        [.create_mechanism u (decide (given 'f' (optionScan env.permute argv)))
          b.SCALAR_TYPE rt.mechanism] ∧
      r.trace.filter Event.isSetupArgs =
        [.uv_setup_args argv.length (argvAfterGetopt env.permute "u:fc:" argv)] ∧
      (argvAfterGetopt env.permute "u:fc:" argv).Perm argv ∧
      (∃ c e, lastArg 'c' (optionScan env.permute argv) = some c ∧
        e ∈ argvAfterGetopt env.permute "u:fc:" argv ∧ c.toList <:+ e.toList) ∧
      ∀ argv' r', Accepted env.permute argv' →
        lastArg 'u' (optionScan env.permute argv') = some u →
        (given 'f' (optionScan env.permute argv') ↔ given 'f' (optionScan env.permute argv)) →
        main env b rt argv' = some r' →
        r'.trace.filter (fun e => !e.isSetupArgs) = r.trace.filter (fun e => !e.isSetupArgs) := by
  obtain ⟨u, hu, hm⟩ := main_accepted env b rt argv h
  obtain ⟨c, hc⟩ := lastArg_of_given (Or.inr rfl) h.2.1
  obtain ⟨e, he, hsuf⟩ := lastArg_within env.permute argv 'c' c hc
  refine ⟨_, u, hm, rfl, hu, ?_, ?_, argvAfterGetopt_perm _ _ _, ⟨c, e, hc, he, hsuf⟩, ?_⟩
  · rw [filter_pipeline _ _ _ _ _ _ _ (by intro e; cases e <;> simp [Event.isStore, Event.isLoader])]
    simp only [setup, handles, resolve, compute]
    split_ifs <;> simp [Event.isLoader]
  · rw [filter_pipeline _ _ _ _ _ _ _
      (by intro e; cases e <;> simp [Event.isStore, Event.isSetupArgs])]
    simp only [setup, handles, resolve, compute]
    split_ifs <;> simp [Event.isSetupArgs, argvAfterGetopt_length]
  · intro argv' r' h' hu' hf hm'
    obtain ⟨u', hu'', hm''⟩ := main_accepted env b rt argv' h'
    rw [hu'] at hu''
    cases hu''
    rw [hm''] at hm'
    cases hm'
    have hf' : decide (given 'f' (optionScan env.permute argv')) =
        decide (given 'f' (optionScan env.permute argv)) := by simp [hf]
    simp only [hf', pipeline, setup, List.filter_append]
    congr 1

/-- C3 amended, at `exampleArgv`, an accepted argument vector. -/
theorem C3_model_loader_call_witness :
    Accepted exampleEnv.permute exampleArgv ∧
    ∃ r u, main exampleEnv exampleBuild exampleRuntime exampleArgv = some r ∧ r.exit = .exit 0 ∧
      lastArg 'u' (optionScan exampleEnv.permute exampleArgv) = some u ∧
      r.trace.filter Event.isLoader =
        [.create_mechanism u (decide (given 'f' (optionScan exampleEnv.permute exampleArgv)))
          exampleBuild.SCALAR_TYPE exampleRuntime.mechanism] ∧
      r.trace.filter Event.isSetupArgs =
        [.uv_setup_args exampleArgv.length
          (argvAfterGetopt exampleEnv.permute "u:fc:" exampleArgv)] ∧
      (argvAfterGetopt exampleEnv.permute "u:fc:" exampleArgv).Perm exampleArgv ∧
      (∃ c e, lastArg 'c' (optionScan exampleEnv.permute exampleArgv) = some c ∧
        e ∈ argvAfterGetopt exampleEnv.permute "u:fc:" exampleArgv ∧ c.toList <:+ e.toList) ∧
      ∀ argv' r', Accepted exampleEnv.permute argv' →
        lastArg 'u' (optionScan exampleEnv.permute argv') = some u →
        (given 'f' (optionScan exampleEnv.permute argv') ↔
          given 'f' (optionScan exampleEnv.permute exampleArgv)) →
        main exampleEnv exampleBuild exampleRuntime argv' = some r' →
        r'.trace.filter (fun e => !e.isSetupArgs) = r.trace.filter (fun e => !e.isSetupArgs) :=
  ⟨by decide, C3_model_loader_call exampleEnv exampleBuild exampleRuntime exampleArgv
    (by decide)⟩

theorem isStore_excl (e : Event) (h : e.isStore = true) :
    e.isLoader = false ∧ e.isFactory = false ∧ e.isDynamics = false ∧
    e.isResolution = false ∧ e.isRootOp = false ∧ e.isHook = false ∧ e.isInit = false ∧
    e.isEval = false ∧ e.isPush = false ∧ e.isPop = false ∧ e.isForward = false := by
  cases e with
  | store a i v => exact ⟨rfl, rfl, rfl, rfl, rfl, rfl, rfl, rfl, rfl, rfl, rfl⟩
  | _ => cases h

theorem pipeline_split (env : Env) (b : Build) (rt : Runtime) (av : List String) (u : String)
    (f : Bool) :
    pipeline env b rt av u f =
      (setup b rt av u f ++ handles rt ++ resolve rt) ++
        (populate rt (toInt rt.nq) (toInt rt.nv) ++ compute env rt) := by
  simp [pipeline]

theorem before_populate (b : Build) (rt : Runtime) (av : List String) (u : String) (f : Bool) :
    ∀ e ∈ setup b rt av u f ++ handles rt ++ resolve rt,
      e.isStore = false ∧ e.isDynamics = false ∧ e.isPop = false ∧ e.isHook = false := by
  intro e he
  have key : (setup b rt av u f ++ handles rt ++ resolve rt).all
      (fun e => !e.isStore && !e.isDynamics && !e.isPop && !e.isHook) = true := by
    simp only [setup]
    split_ifs <;> rfl
  have := List.all_eq_true.1 key e he
  simpa [and_assoc] using this

/-- Order of two kinds of events that are not stores: it is decided on
the fixed part of the pipeline. -/
theorem precedes_pipeline (env : Env) (b : Build) (rt : Runtime) (av : List String) (u : String)
    (f : Bool) (p q : Event → Bool) (hp : ∀ e, e.isStore = true → p e = false)
    (hq : ∀ e, e.isStore = true → q e = false)
    (hfix : precedesB p q
      ((setup b rt av u f ++ handles rt ++ resolve rt) ++ compute env rt) = true) :
    Precedes p q (pipeline env b rt av u f) := by
  apply precedesB_sound
  have hP1 : ∀ e ∈ populate rt (toInt rt.nq) (toInt rt.nv), q e = false :=
    fun e he => hq e (populate_isStore _ _ _ _ he)
  have hP2 : (populate rt (toInt rt.nq) (toInt rt.nv)).any q = false := by
    rw [List.any_eq_false]; intro e he; simp [hP1 e he]
  have hP3 : (populate rt (toInt rt.nq) (toInt rt.nv)).all (fun e => !p e) = true := by
    rw [List.all_eq_true]; intro e he; simp [hp e (populate_isStore _ _ _ _ he)]
  rw [precedesB_append] at hfix
  rw [pipeline_split,
    precedesB_append p q (setup b rt av u f ++ handles rt ++ resolve rt)
      (populate rt (toInt rt.nq) (toInt rt.nv) ++ compute env rt),
    precedesB_append p q (populate rt (toInt rt.nq) (toInt rt.nv)) (compute env rt),
    precedesB_of_no_q p q _ hP1, List.all_append, hP2, hP3]
  simpa using hfix

theorem gcFinal_before_populate (b : Build) (rt : Runtime) (av : List String) (u : String)
    (f : Bool) :
    (setup b rt av u f ++ handles rt ++ resolve rt).foldl gcStep GcState.init =
      midState rt := by
  simp only [setup]
  split_ifs <;> rfl

theorem annotate_pipeline (env : Env) (b : Build) (rt : Runtime) (av : List String) (u : String)
    (f : Bool) :
    annotate (pipeline env b rt av u f) =
      annotate (setup b rt av u f ++ handles rt ++ resolve rt) ++
        (((populate rt (toInt rt.nq) (toInt rt.nv)).map fun e => (midState rt, e)) ++
          annotateFrom gcStep (midState rt) (compute env rt)) := by
  rw [pipeline_split, annotate, annotateFrom_append, gcFinal_before_populate,
    annotateFrom_populate]
  rfl

theorem annotate_fixed (env : Env) (b : Build) (rt : Runtime) (av : List String) (u : String)
    (f : Bool) :
    annotate ((setup b rt av u f ++ handles rt ++ resolve rt) ++ compute env rt) =
      annotate (setup b rt av u f ++ handles rt ++ resolve rt) ++
        annotateFrom gcStep (midState rt) (compute env rt) := by
  rw [annotate, annotateFrom_append, gcFinal_before_populate]
  rfl

/-- A property of annotated events that holds of every input store, made
in `midState`, holds along the whole pipeline once it holds along its
fixed part. -/
theorem forall_annotate_pipeline (env : Env) (b : Build) (rt : Runtime) (av : List String)
    (u : String) (f : Bool) (P : GcState × Event → Prop)
    (hstore : ∀ e ∈ populate rt (toInt rt.nq) (toInt rt.nv), P (midState rt, e))
    (hfix : ∀ x ∈ annotate ((setup b rt av u f ++ handles rt ++ resolve rt) ++
      compute env rt), P x) :
    ∀ x ∈ annotate (pipeline env b rt av u f), P x := by
  intro x hx
  rw [annotate_pipeline] at hx
  rw [annotate_fixed] at hfix
  rcases List.mem_append.1 hx with hx | hx
  · exact hfix x (List.mem_append_left _ hx)
  · rcases List.mem_append.1 hx with hx | hx
    · obtain ⟨e, he, rfl⟩ := List.mem_map.1 hx
      exact hstore e he
    · exact hfix x (List.mem_append_right _ hx)

theorem annotateFrom_take {σ : Type} (step : σ → Event → σ) (s : σ) (l : List Event)
    (n : Nat) : annotateFrom step s (l.take n) = (annotateFrom step s l).take n := by
  induction l generalizing s n with
  | nil => simp [annotateFrom]
  | cons e rest ih =>
    cases n with
    | zero => simp [annotateFrom]
    | succ n => simp [annotateFrom, ih]

theorem mem_annotate_take {tr : List Event} {n : Nat} {x : GcState × Event}
    (h : x ∈ annotate (tr.take n)) : x ∈ annotate tr := by
  rw [annotate, annotateFrom_take] at h
  exact List.mem_of_mem_take h

theorem fatalAt_trace (r : Run) (k : Nat) : (r.fatalAt k).trace = r.trace.take (k + 1) := by
  unfold Run.fatalAt
  split
  · rfl
  · rw [List.take_of_length_le (by omega)]

theorem fixed_all (env : Env) (b : Build) (rt : Runtime) (av : List String) (u : String)
    (f : Bool) (P : GcState × Event → Bool)
    (h : ∀ pr : List Event, pr = [] ∨ pr = [.printf "Scalar type: Float64\n"] ∨
        pr = [.printf "Scalar type: Float32\n"] →
      (annotate ([ .uv_setup_args av.length av, .libsupport_init,
          .set_image_file b.JULIAC_PROGRAM_LIBNAME, .julia_init,
          .JL_GC_PUSH5 .mechanism .state .result .vd_desired .tau,
          .jl_eval_string "using RigidBodyDynamics.LinearAlgebra",
          .jl_eval_string "BLAS.set_num_threads(1)" ] ++ pr ++
        [ .create_mechanism u f b.SCALAR_TYPE rt.mechanism, .assign .mechanism rt.mechanism,
          .create_state rt.mechanism rt.state, .assign .state rt.state,
          .create_dynamics_result rt.mechanism rt.result, .assign .result rt.result ] ++
        handles rt ++ resolve rt ++ compute env rt)).all P = true) :
    ∀ x ∈ annotate ((setup b rt av u f ++ handles rt ++ resolve rt) ++ compute env rt),
      P x = true := by
  have key : (annotate ((setup b rt av u f ++ handles rt ++ resolve rt) ++
      compute env rt)).all P = true := by
    simp only [setup]
    split_ifs
    · exact h _ (Or.inr (Or.inl rfl))
    · exact h _ (Or.inr (Or.inr rfl))
    · exact h _ (Or.inl rfl)
  exact fun x hx => List.all_eq_true.1 key x hx

theorem forward_disabled (env : Env) (b : Build) (rt : Runtime) (av : List String) (u : String)
    (f : Bool) :
    ∀ x ∈ annotate (pipeline env b rt av u f),
      (x.2.isForward = true → x.1.enabled = false) ∧
      (x.1.enabled = false → x.2.isForward = true ∨ x.2.isEnable = true) ∧
      (x.2.isDynamics = true → x.2.isForward = false → x.1.enabled = true) := by
  apply forall_annotate_pipeline
  · intro e he'
    have he := populate_isStore _ _ _ _ he'
    refine ⟨fun h => ?_, fun h => ?_, fun _ _ => rfl⟩
    · rw [(isStore_excl e he).2.2.2.2.2.2.2.2.2.2] at h; cases h
    · cases h
  · intro x hx
    have := fixed_all env b rt av u f
      (fun x => (!x.2.isForward || !x.1.enabled) &&
        (x.1.enabled || x.2.isForward || x.2.isEnable) &&
        (!x.2.isDynamics || x.2.isForward || x.1.enabled))
      (by rintro pr (rfl | rfl | rfl) <;> rfl) x hx
    simp only [Bool.and_eq_true, Bool.or_eq_true, Bool.not_eq_true'] at this
    obtain ⟨⟨h1, h2⟩, h3⟩ := this
    refine ⟨fun h => ?_, fun h => ?_, fun h h' => ?_⟩
    · rcases h1 with h1 | h1
      · rw [h] at h1; cases h1
      · exact h1
    · rcases h2 with (h2 | h2) | h2
      · rw [h] at h2; cases h2
      · exact Or.inl h2
      · exact Or.inr h2
    · rcases h3 with (h3 | h3) | h3
      · rw [h] at h3; cases h3
      · rw [h'] at h3; cases h3
      · exact h3

theorem pipeline_prelude (env : Env) (b : Build) (rt : Runtime) (av : List String) (u : String)
    (f : Bool) : pipeline env b rt av u f = prelude b rt av u f ++ compute env rt := rfl

theorem prelude_no_dynamics (b : Build) (rt : Runtime) (av : List String) (u : String) (f : Bool) :
    ∀ e ∈ prelude b rt av u f,
      e.isDynamics = false ∧ e.isForward = false ∧ e.isPop = false ∧ e.isHook = false := by
  intro e he
  rcases List.mem_append.1 he with he | he
  · have := before_populate b rt av u f e he
    refine ⟨this.2.1, ?_, this.2.2.1, this.2.2.2⟩
    cases e <;> first | rfl | (have h := this.2.1; cases h)
  · have := isStore_excl e (populate_isStore _ _ _ _ he)
    exact ⟨this.2.2.1, this.2.2.2.2.2.2.2.2.2.2, this.2.2.2.2.2.2.2.2.2.1, this.2.2.2.2.2.1⟩

theorem foldl_prelude (b : Build) (rt : Runtime) (av : List String) (u : String) (f : Bool) :
    (prelude b rt av u f).foldl gcStep GcState.init = midState rt := by
  rw [prelude, List.foldl_append, gcFinal_before_populate,
    foldl_gcStep_stores _ _ (populate_isStore _ _ _)]

theorem forward_index (env : Env) (b : Build) (rt : Runtime) (av : List String) (u : String)
    (f : Bool) (i : Nat) (e : Event) (hi : (pipeline env b rt av u f)[i]? = some e)
    (he : e.isForward = true) : i = (prelude b rt av u f).length + 3 := by
  rw [pipeline_prelude] at hi
  by_cases hlt : i < (prelude b rt av u f).length
  · rw [List.getElem?_append_left hlt] at hi
    have := (prelude_no_dynamics b rt av u f e (List.getElem?_mem hi)).2.1
    rw [this] at he; cases he
  · rw [List.getElem?_append_right (by omega)] at hi
    obtain ⟨j, hj⟩ : ∃ j, i - (prelude b rt av u f).length = j := ⟨_, rfl⟩
    rw [hj] at hi
    have hj7 : j < 7 := by
      by_contra h7
      rw [List.getElem?_eq_none (by simp [compute]; omega)] at hi
      cases hi
    interval_cases j <;> simp [compute] at hi <;> subst hi <;>
      first | omega | cases he

theorem after_forward (env : Env) (b : Build) (rt : Runtime) (av : List String) (u : String)
    (f : Bool) (i : Nat) (e e' : Event) (hi : (pipeline env b rt av u f)[i]? = some e)
    (hi' : (pipeline env b rt av u f)[i + 1]? = some e') (he : e.isForward = true) :
    e' = .jl_eval_string "GC.enable(true)" := by
  have := forward_index env b rt av u f i e hi he
  subst this
  rw [pipeline_prelude, List.getElem?_append_right (by omega)] at hi'
  have h4 : (prelude b rt av u f).length + 3 + 1 - (prelude b rt av u f).length = 4 := by
    omega
  rw [h4] at hi'
  simpa [compute] using hi'.symm

theorem fatal_in_forward (env : Env) (b : Build) (rt : Runtime) (av : List String) (u : String)
    (f : Bool) (k : Nat) (e : Event)
    (hk : k < (pipeline env b rt av u f).length)
    (hlast : ((pipeline env b rt av u f).take (k + 1)).getLast? = some e)
    (he : e.isForward = true) :
    (gcFinal ((pipeline env b rt av u f).take (k + 1))).enabled = false ∧
      ∀ e' ∈ (pipeline env b rt av u f).take (k + 1), e'.isEnable = false := by
  have hk' : (pipeline env b rt av u f)[k]? = some e := by
    rw [List.getLast?_take] at hlast
    simp only [Nat.add_one_ne_zero, if_false, Nat.add_sub_cancel] at hlast
    obtain ⟨x, hx⟩ : ∃ x, (pipeline env b rt av u f)[k]? = some x :=
      ⟨_, List.getElem?_eq_getElem hk⟩
    rw [hx] at hlast
    simpa [hx] using hlast
  have := forward_index env b rt av u f k e hk' he
  subst this
  have ht : (pipeline env b rt av u f).take ((prelude b rt av u f).length + 3 + 1) =
      prelude b rt av u f ++
        [ .inverse_dynamics rt.tau rt.jointwrenches rt.accelerations rt.state rt.vd_desired,
          .mass_matrix rt.M rt.state, .jl_eval_string "GC.enable(false)",
          .dynamics rt.result rt.state rt.tau ] := by
    rw [pipeline_prelude, Nat.add_assoc, List.take_append]
    rfl
  rw [ht]
  constructor
  · rw [gcFinal, List.foldl_append, foldl_prelude]
    rfl
  · intro e' he'
    rcases List.mem_append.1 he' with he' | he'
    · rcases List.mem_append.1 he' with he' | he'
      · have key : (setup b rt av u f ++ handles rt ++ resolve rt).all
            (fun e => !e.isEnable) = true := by
          simp only [setup]
          split_ifs <;> rfl
        simpa using List.all_eq_true.1 key e' he'
      · have := populate_isStore _ _ _ _ he'
        cases e' with
        | store a i v => rfl
        | _ => cases this
    · have key : ([ .inverse_dynamics rt.tau rt.jointwrenches rt.accelerations rt.state
          rt.vd_desired, .mass_matrix rt.M rt.state, .jl_eval_string "GC.enable(false)",
          .dynamics rt.result rt.state rt.tau ] : List Event).all
            (fun e => !e.isEnable) = true := rfl
      simpa using List.all_eq_true.1 key e' he'

/-! ## Collector suspension -/

/-- C5 as stated fails: in the run on `exampleArgv` in which the
forward-dynamics call fails, the process ends in that call with the
collector disabled, and no event of the run switches it back on. -/
theorem C5_counterexample :
    ∃ r, main exampleEnv exampleBuild exampleRuntime exampleArgv = some r ∧
      r.forwardFails.exit = .fatal ∧
      r.forwardFails.trace.getLast? =
        some (.dynamics exampleRuntime.result exampleRuntime.state exampleRuntime.tau) ∧
      (gcFinal r.forwardFails.trace).enabled = false ∧
      ∀ e ∈ r.forwardFails.trace, e.isEnable = false := by
  refine ⟨{ exit := .exit 0,
            trace := pipeline exampleEnv exampleBuild exampleRuntime exampleArgv "arm.urdf" false },
    rfl, by decide, by decide, by decide, by decide⟩

theorem gcFinal_pipeline (env : Env) (b : Build) (rt : Runtime) (av : List String) (u : String)
    (f : Bool) :
    gcFinal (pipeline env b rt av u f) =
      { enabled := true, frames := [],
        vars := { mechanism := rt.mechanism, state := rt.state, result := rt.result,
                  vd_desired := rt.vd_desired, tau := rt.tau },
        underflow := false } := by
  rw [pipeline_prelude, gcFinal, List.foldl_append, foldl_prelude]
  rfl

/-- C5 amended: on an accepted argument vector, in the complete run and
in every run that ends inside a runtime call (position `k` of the
trace), the forward-dynamics call happens with the collector disabled,
nothing else happens with the collector disabled except the evaluation
that switches it back on, inverse dynamics and mass matrix happen with
the collector enabled, and whatever follows the forward-dynamics call at
once is `GC.enable(true)`.  The complete run has exactly one
forward-dynamics call and ends with the collector enabled.  A run that
ends inside the forward-dynamics call ends with the collector disabled
and holds no `GC.enable(true)`. -/
theorem C5_collector_suspension (env : Env) (b : Build) (rt : Runtime) (argv : List String)
    (h : Accepted env.permute argv) (k : Nat) :
    ∃ r, main env b rt argv = some r ∧
      (∀ x ∈ annotate (r.fatalAt k).trace,
        (x.2.isForward = true → x.1.enabled = false) ∧
        (x.1.enabled = false → x.2.isForward = true ∨ x.2.isEnable = true) ∧
        (x.2.isDynamics = true → x.2.isForward = false → x.1.enabled = true)) ∧
      (∀ (i : Nat) (e e' : Event), (r.fatalAt k).trace[i]? = some e →
        (r.fatalAt k).trace[i + 1]? = some e' → e.isForward = true →
        e' = .jl_eval_string "GC.enable(true)") ∧
      r.trace.filter Event.isForward = [.dynamics rt.result rt.state rt.tau] ∧
      (gcFinal r.trace).enabled = true ∧
      ∀ e, (r.fatalAt k).exit = .fatal → (r.fatalAt k).trace.getLast? = some e →
        e.isForward = true →
        (gcFinal (r.fatalAt k).trace).enabled = false ∧
          ∀ e' ∈ (r.fatalAt k).trace, e'.isEnable = false := by
  obtain ⟨u, _, hm⟩ := main_accepted env b rt argv h
  refine ⟨_, hm, ?_, ?_, ?_, ?_, ?_⟩
  · intro x hx
    rw [fatalAt_trace] at hx
    exact forward_disabled env b rt _ _ _ x (mem_annotate_take hx)
  · intro i e e' hi hi' he
    rw [fatalAt_trace, List.getElem?_take] at hi hi'
    split at hi
    · split at hi'
      · exact after_forward env b rt _ _ _ i e e' hi hi' he
      · cases hi'
    · cases hi
  · rw [filter_pipeline _ _ _ _ _ _ _ (fun e he => (isStore_excl e he).2.2.2.2.2.2.2.2.2.2)]
    simp only [setup, handles, resolve, compute]
    split_ifs <;> simp [Event.isForward]
  · rw [gcFinal_pipeline]
  · intro e hex hlast he
    by_cases hk : k < (pipeline env b rt (argvAfterGetopt env.permute "u:fc:" argv) u
        (decide (given 'f' (optionScan env.permute argv)))).length
    · rw [fatalAt_trace] at hlast ⊢
      exact fatal_in_forward env b rt _ _ _ k e hk hlast he
    · simp [Run.fatalAt, hk] at hex

/-- C5 amended, at `exampleArgv` and position 54 of the trace, which is
the forward-dynamics call. -/
theorem C5_collector_suspension_witness :
    Accepted exampleEnv.permute exampleArgv ∧
    ∃ r, main exampleEnv exampleBuild exampleRuntime exampleArgv = some r ∧
      (∀ x ∈ annotate (r.fatalAt 54).trace,
        (x.2.isForward = true → x.1.enabled = false) ∧
        (x.1.enabled = false → x.2.isForward = true ∨ x.2.isEnable = true) ∧
        (x.2.isDynamics = true → x.2.isForward = false → x.1.enabled = true)) ∧
      (∀ (i : Nat) (e e' : Event), (r.fatalAt 54).trace[i]? = some e →
        (r.fatalAt 54).trace[i + 1]? = some e' → e.isForward = true →
        e' = .jl_eval_string "GC.enable(true)") ∧
      r.trace.filter Event.isForward =
        [.dynamics exampleRuntime.result exampleRuntime.state exampleRuntime.tau] ∧
      (gcFinal r.trace).enabled = true ∧
      ∀ e, (r.fatalAt 54).exit = .fatal → (r.fatalAt 54).trace.getLast? = some e →
        e.isForward = true →
        (gcFinal (r.fatalAt 54).trace).enabled = false ∧
          ∀ e' ∈ (r.fatalAt 54).trace, e'.isEnable = false :=
  ⟨by decide, C5_collector_suspension exampleEnv exampleBuild exampleRuntime exampleArgv
    (by decide) 54⟩

/-! ## Root scoping -/

theorem main_cases (env : Env) (b : Build) (rt : Runtime) (argv : List String) :
    main env b rt argv = some { exit := .abort, trace := [] } ∨
    main env b rt argv =
      some { exit := .abort, trace := [.fprintf_stderr "Must pass in URDF argument (-u)."] } ∨
    main env b rt argv =
      some { exit := .abort, trace := [.fprintf_stderr "Must pass in CSV argument (-c)."] } ∨
    ∃ u f, main env b rt argv =
      some { exit := .exit 0, trace := pipeline env b rt (argvAfterGetopt env.permute "u:fc:" argv) u f } := by
  obtain ⟨r, hr⟩ := parseArgs_total env.permute argv
  cases r with
  | abort => exact Or.inl (main_of_abort hr)
  | done l =>
    cases hu : l.urdf with
    | none => exact Or.inr (Or.inl (main_of_no_urdf hr hu))
    | some u =>
      cases hc : l.csv with
      | none => exact Or.inr (Or.inr (Or.inl (main_of_no_csv hr hu hc)))
      | some c => exact Or.inr (Or.inr (Or.inr ⟨u, l.floating, main_of_accepted hr hu hc⟩))

theorem pipeline_split_pop (env : Env) (b : Build) (rt : Runtime) (av : List String) (u : String)
    (f : Bool) :
    pipeline env b rt av u f =
      (prelude b rt av u f ++
        [ .inverse_dynamics rt.tau rt.jointwrenches rt.accelerations rt.state rt.vd_desired,
          .mass_matrix rt.M rt.state, .jl_eval_string "GC.enable(false)",
          .dynamics rt.result rt.state rt.tau, .jl_eval_string "GC.enable(true)" ]) ++
      [.JL_GC_POP, .jl_atexit_hook env.retcode] := by
  rw [pipeline_prelude, List.append_assoc]
  rfl

theorem precedes_pop (env : Env) (b : Build) (rt : Runtime) (av : List String) (u : String)
    (f : Bool) (p : Event → Bool) (hpop : p .JL_GC_POP = false)
    (hhook : p (.jl_atexit_hook env.retcode) = false) :
    Precedes p Event.isPop (pipeline env b rt av u f) := by
  refine precedes_of_split (pipeline_split_pop env b rt av u f) ?_ ?_
  · intro e he
    rcases List.mem_append.1 he with he | he
    · exact (prelude_no_dynamics b rt av u f e he).2.2.1
    · have key : ([ .inverse_dynamics rt.tau rt.jointwrenches rt.accelerations rt.state
          rt.vd_desired, .mass_matrix rt.M rt.state, .jl_eval_string "GC.enable(false)",
          .dynamics rt.result rt.state rt.tau, .jl_eval_string "GC.enable(true)" ] :
            List Event).all (fun e => !e.isPop) = true := rfl
      simpa using List.all_eq_true.1 key e he
  · intro e he
    rcases List.mem_cons.1 he with rfl | he
    · exact hpop
    · rcases List.mem_cons.1 he with rfl | he
      · exact hhook
      · cases he

theorem root_scoping_pipeline (env : Env) (b : Build) (rt : Runtime) (av : List String)
    (u : String) (f : Bool) :
    (gcFinal (pipeline env b rt av u f)).frames = [] ∧
    (gcFinal (pipeline env b rt av u f)).underflow = false ∧
    (pipeline env b rt av u f).filter Event.isPush =
      [.JL_GC_PUSH5 .mechanism .state .result .vd_desired .tau] ∧
    (pipeline env b rt av u f).filter Event.isPop = [.JL_GC_POP] ∧
    Precedes Event.isPush Event.mayCollect (pipeline env b rt av u f) ∧
    Precedes (fun e => e.mayCollect || e.usesHandle) Event.isPop
      (pipeline env b rt av u f) := by
  refine ⟨by rw [gcFinal_pipeline], by rw [gcFinal_pipeline], ?_, ?_, ?_, ?_⟩
  · rw [filter_pipeline _ _ _ _ _ _ _ (fun e he => (isStore_excl e he).2.2.2.2.2.2.2.2.1)]
    simp only [setup, handles, resolve, compute]
    split_ifs <;> simp [Event.isPush]
  · rw [filter_pipeline _ _ _ _ _ _ _ (fun e he => (isStore_excl e he).2.2.2.2.2.2.2.2.2.1)]
    simp only [setup, handles, resolve, compute]
    split_ifs <;> simp [Event.isPop]
  · refine precedes_pipeline _ _ _ _ _ _ _ _
      (fun e he => (isStore_excl e he).2.2.2.2.2.2.2.2.1)
      (fun e he => by cases e <;> first | rfl | cases he) ?_
    simp only [setup]; split_ifs <;> rfl
  · exact precedes_pop env b rt av u f _ rfl rfl

theorem precedes_take {p q : Event → Bool} {tr : List Event} (h : Precedes p q tr)
    (n : Nat) : Precedes p q (tr.take n) := by
  intro i j e e' hi hj hp hq
  rw [List.getElem?_take] at hi hj
  split at hi
  · split at hj
    · exact h i j e e' hi hj hp hq
    · cases hj
  · cases hi

theorem filter_take_length_le (p : Event → Bool) (tr : List Event) (n : Nat) :
    ((tr.take n).filter p).length ≤ (tr.filter p).length :=
  ((List.take_sublist n tr).filter p).length_le

theorem foldl_take_cases {σ : Type} (step : σ → Event → σ) (s : σ) (tr : List Event)
    (n : Nat) :
    (tr.take n).foldl step s = tr.foldl step s ∨
      ∃ x ∈ annotateFrom step s tr, x.1 = (tr.take n).foldl step s := by
  induction tr generalizing s n with
  | nil => left; simp
  | cons e rest ih =>
    cases n with
    | zero => right; exact ⟨(s, e), List.mem_cons_self _ _, rfl⟩
    | succ n =>
      rcases ih (step s e) n with h | ⟨x, hx, hx'⟩
      · left; simpa using h
      · right; exact ⟨x, List.mem_cons_of_mem _ hx, by simpa using hx'⟩

theorem annotateFrom_getElem? {σ : Type} (step : σ → Event → σ) (s : σ) (tr : List Event)
    (k : Nat) (e : Event) (h : tr[k]? = some e) :
    (tr.take k).foldl step s ∈ (annotateFrom step s tr).map Prod.fst ∧
    ((tr.take k).foldl step s, e) ∈ annotateFrom step s tr ∧
    (tr.take (k + 1)).foldl step s = step ((tr.take k).foldl step s) e := by
  induction tr generalizing s k with
  | nil => simp at h
  | cons a rest ih =>
    cases k with
    | zero =>
      simp only [List.getElem?_cons_zero, Option.some.injEq] at h
      subst h
      simp [annotateFrom]
    | succ k =>
      simp only [List.getElem?_cons_succ] at h
      obtain ⟨h1, h2, h3⟩ := ih (step s a) k h
      refine ⟨?_, ?_, ?_⟩
      · simpa [annotateFrom] using Or.inr (by simpa using h1)
      · simpa [annotateFrom] using Or.inr h2
      · simpa using h3

theorem underflow_sticky (tr : List Event) (s : GcState) (h : s.underflow = true) :
    (tr.foldl gcStep s).underflow = true := by
  induction tr generalizing s with
  | nil => exact h
  | cons e rest ih =>
    apply ih
    cases e <;> simp only [gcStep] <;> try exact h
    · split <;> simp [h]
    · split_ifs <;> simp [h]

/-- Frames are counted by pushes and pops: without underflow, the frames
left plus the pops make the frames at the start plus the pushes. -/
theorem frames_balance (tr : List Event) (s : GcState)
    (h : (tr.foldl gcStep s).underflow = false) :
    (tr.foldl gcStep s).frames.length + (tr.filter Event.isPop).length =
      s.frames.length + (tr.filter Event.isPush).length := by
  induction tr generalizing s with
  | nil => simp
  | cons e rest ih =>
    rw [List.foldl_cons] at h ⊢
    have := ih (gcStep s e) h
    cases e with
    | JL_GC_PUSH5 a1 a2 a3 a4 a5 =>
      simp only [gcStep, List.length_cons] at this ⊢
      simp only [List.filter_cons, Event.isPush, Event.isPop, if_true, List.length_cons]
      simp only [Bool.false_eq_true, if_false]
      omega
    | JL_GC_POP =>
      cases hf : s.frames with
      | nil =>
        have hu : (gcStep s .JL_GC_POP).underflow = true := by simp [gcStep, hf]
        rw [underflow_sticky rest _ hu] at h
        cases h
      | cons fr frs =>
        have e1 : (gcStep s .JL_GC_POP).frames = frs := by simp [gcStep, hf]
        rw [e1] at this
        simp only [List.filter_cons, Event.isPush, Event.isPop, if_true, List.length_cons]
        simp only [Bool.false_eq_true, if_false]
        omega
    | jl_eval_string str =>
      have e1 : (gcStep s (.jl_eval_string str)).frames = s.frames := by
        simp only [gcStep]; split_ifs <;> rfl
      rw [e1] at this
      simpa [List.filter_cons, Event.isPush, Event.isPop] using this
    | _ => simpa [List.filter_cons, Event.isPush, Event.isPop, gcStep] using this

theorem gcStep_frames (s : GcState) (e : Event)
    (h : (e.mayCollect || e.usesHandle) = true) : (gcStep s e).frames = s.frames := by
  cases e <;> first
    | rfl
    | (simp only [gcStep]; split_ifs <;> rfl)
    | cases h

theorem scoped_prefix {tr : List Event} (h : Scoped tr) (k : Nat) :
    (gcFinal (tr.take (k + 1))).underflow = false ∧
    (gcFinal (tr.take (k + 1))).frames.length + ((tr.take (k + 1)).filter Event.isPop).length =
      ((tr.take (k + 1)).filter Event.isPush).length ∧
    ((tr.take (k + 1)).filter Event.isPush).length ≤ 1 ∧
    Precedes Event.isPush Event.mayCollect (tr.take (k + 1)) ∧
    Precedes (fun e => e.mayCollect || e.usesHandle) Event.isPop (tr.take (k + 1)) ∧
    (∀ x ∈ annotate (tr.take (k + 1)), (x.2.mayCollect || x.2.usesHandle) = true →
      x.1.frames = [[.mechanism, .state, .result, .vd_desired, .tau]]) ∧
    (∀ e, k < tr.length → (tr.take (k + 1)).getLast? = some e →
      (e.mayCollect || e.usesHandle) = true →
      (gcFinal (tr.take (k + 1))).frames = [[.mechanism, .state, .result, .vd_desired, .tau]] ∧
      ((tr.take (k + 1)).filter Event.isPush).length = 1 ∧
      (tr.take (k + 1)).filter Event.isPop = []) := by
  obtain ⟨h1, h2, h3, h4, h5, h6⟩ := h
  have hu : (gcFinal (tr.take (k + 1))).underflow = false := by
    rcases foldl_take_cases gcStep GcState.init tr (k + 1) with hc | ⟨x, hx, hx'⟩
    · rw [gcFinal, hc]; exact h2
    · rw [gcFinal, ← hx']; exact h1 x hx
  have hb := frames_balance (tr.take (k + 1)) GcState.init hu
  have hb' : (gcFinal (tr.take (k + 1))).frames.length +
      ((tr.take (k + 1)).filter Event.isPop).length =
      ((tr.take (k + 1)).filter Event.isPush).length := by
    simpa [gcFinal, GcState.init] using hb
  have hp1 : ((tr.take (k + 1)).filter Event.isPush).length ≤ 1 :=
    le_trans (filter_take_length_le _ _ _) h3
  refine ⟨hu, hb', hp1, precedes_take h4 _, precedes_take h5 _,
    fun x hx => h6 x (mem_annotate_take hx), ?_⟩
  intro e hk hlast he
  have hk' : tr[k]? = some e := by
    rw [List.getLast?_take] at hlast
    simp only [Nat.add_one_ne_zero, if_false, Nat.add_sub_cancel] at hlast
    obtain ⟨x, hx⟩ : ∃ x, tr[k]? = some x := ⟨_, List.getElem?_eq_getElem hk⟩
    rw [hx] at hlast
    simpa [hx] using hlast
  obtain ⟨_, hmem, hstep⟩ := annotateFrom_getElem? gcStep GcState.init tr k e hk'
  have hfr : (gcFinal (tr.take (k + 1))).frames =
      [[.mechanism, .state, .result, .vd_desired, .tau]] := by
    rw [gcFinal, hstep, gcStep_frames _ _ he]
    exact h6 _ hmem he
  rw [hfr] at hb'
  simp only [List.length_cons, List.length_nil] at hb'
  refine ⟨hfr, by omega, ?_⟩
  exact List.eq_nil_of_length_eq_zero (by omega)

theorem scoped_pipeline (env : Env) (b : Build) (rt : Runtime) (av : List String)
    (u : String) (f : Bool) : Scoped (pipeline env b rt av u f) := by
  obtain ⟨_, h2, h3, _, h5, h6⟩ := root_scoping_pipeline env b rt av u f
  have key : ∀ x ∈ annotate (pipeline env b rt av u f),
      x.1.underflow = false ∧ ((x.2.mayCollect || x.2.usesHandle) = true →
        x.1.frames = [[.mechanism, .state, .result, .vd_desired, .tau]]) := by
    apply forall_annotate_pipeline
    · intro e _
      exact ⟨rfl, fun _ => rfl⟩
    · intro x hx
      have := fixed_all env b rt av u f
        (fun x => !x.1.underflow && (!(x.2.mayCollect || x.2.usesHandle) ||
          decide (x.1.frames = [[.mechanism, .state, .result, .vd_desired, .tau]])))
        (by rintro pr (rfl | rfl | rfl) <;> rfl) x hx
      simp only [Bool.and_eq_true, Bool.or_eq_true, Bool.not_eq_true', decide_eq_true_eq]
        at this
      refine ⟨this.1, fun h => ?_⟩
      rcases this.2 with h' | h'
      · rw [h] at h'; cases h'
      · exact h'
  refine ⟨fun x hx => (key x hx).1, h2, ?_, h5, h6, fun x hx => (key x hx).2⟩
  rw [h3]; rfl

theorem scoped_nil : Scoped [] :=
  ⟨fun x hx => (by cases hx), rfl, Nat.zero_le _, precedesB_sound rfl, precedesB_sound rfl,
    fun x hx => (by cases hx)⟩

theorem scoped_stderr (msg : String) : Scoped [.fprintf_stderr msg] := by
  refine ⟨?_, rfl, Nat.zero_le _, precedesB_sound rfl, precedesB_sound rfl, ?_⟩
  · intro x hx
    simp only [annotate, annotateFrom, List.mem_singleton] at hx
    subst hx; rfl
  · intro x hx h
    simp only [annotate, annotateFrom, List.mem_singleton] at hx
    subst hx
    cases h

/-- C6 as stated fails: in the run on `exampleArgv` that ends inside the
forward-dynamics call, the frame of the five roots has been pushed and no
pop occurs; the run ends with the frame still registered. -/
theorem C6_counterexample :
    ∃ r, main exampleEnv exampleBuild exampleRuntime exampleArgv = some r ∧
      r.forwardFails.exit = .fatal ∧
      r.forwardFails.trace.filter Event.isPush =
        [.JL_GC_PUSH5 .mechanism .state .result .vd_desired .tau] ∧
      r.forwardFails.trace.filter Event.isPop = [] ∧
      (gcFinal r.forwardFails.trace).frames =
        [[.mechanism, .state, .result, .vd_desired, .tau]] :=
  ⟨⟨.exit 0, pipeline exampleEnv exampleBuild exampleRuntime exampleArgv "arm.urdf" false⟩,
    rfl, by decide, by decide, by decide, by decide⟩

/-- C6 amended: in every run that returns from `main` or aborts on its
arguments the GC frames are pushed and popped as a stack: no pop finds
the stack empty and the run ends with no frame left, so every push has
exactly one pop; there is at most one push, always of the five locals
`mechanism`, `state`, `result`, `vd_desired`, `tau`; in a run that
returns there is exactly one push and one pop, the push before every
evaluation, loader, factory, accessor and dynamics call, the pop after
every such call and after every event that uses a handle or a raw buffer.
In a run that ends inside a call (position `k` of the trace) the
discipline holds as far as the run goes: no pop finds the stack empty,
the frames left are the pushes less the pops, there is at most one push,
it comes before every collecting call, no pop comes before a collecting
call or a use, and the frame is registered at each of them; but a run
that ends inside a collecting call or a use ends with the frame pushed
and never popped. -/
theorem C6_root_scoping (env : Env) (b : Build) (rt : Runtime) (argv : List String)
    (k : Nat) :
    ∃ r, main env b rt argv = some r ∧
      (gcFinal r.trace).frames = [] ∧ (gcFinal r.trace).underflow = false ∧
      (r.trace.filter Event.isPush).length = (r.trace.filter Event.isPop).length ∧
      (r.trace.filter Event.isPush).length ≤ 1 ∧
      (∀ e ∈ r.trace, e.isPush = true →
        e = .JL_GC_PUSH5 .mechanism .state .result .vd_desired .tau) ∧
      Precedes Event.isPush Event.mayCollect r.trace ∧
      Precedes (fun e => e.mayCollect || e.usesHandle) Event.isPop r.trace ∧
      (r.exit = .exit 0 →
        r.trace.filter Event.isPush =
          [.JL_GC_PUSH5 .mechanism .state .result .vd_desired .tau] ∧
        r.trace.filter Event.isPop = [.JL_GC_POP]) ∧
      (gcFinal (r.fatalAt k).trace).underflow = false ∧
      (gcFinal (r.fatalAt k).trace).frames.length +
          ((r.fatalAt k).trace.filter Event.isPop).length =
        ((r.fatalAt k).trace.filter Event.isPush).length ∧
      ((r.fatalAt k).trace.filter Event.isPush).length ≤ 1 ∧
      Precedes Event.isPush Event.mayCollect (r.fatalAt k).trace ∧
      Precedes (fun e => e.mayCollect || e.usesHandle) Event.isPop (r.fatalAt k).trace ∧
      (∀ x ∈ annotate (r.fatalAt k).trace, (x.2.mayCollect || x.2.usesHandle) = true →
        x.1.frames = [[.mechanism, .state, .result, .vd_desired, .tau]]) ∧
      (∀ e, (r.fatalAt k).exit = .fatal → (r.fatalAt k).trace.getLast? = some e →
        (e.mayCollect || e.usesHandle) = true →
        (gcFinal (r.fatalAt k).trace).frames =
          [[.mechanism, .state, .result, .vd_desired, .tau]] ∧
        ((r.fatalAt k).trace.filter Event.isPush).length = 1 ∧
        (r.fatalAt k).trace.filter Event.isPop = []) := by
  have fatal_lt : ∀ r : Run, (r.fatalAt k).exit = .fatal → r.exit ≠ .fatal →
      k < r.trace.length := by
    intro r hf hr
    by_contra hk
    simp only [Run.fatalAt, if_neg hk] at hf
    exact hr hf
  rcases main_cases env b rt argv with hm | hm | hm | ⟨u, f, hm⟩
  · obtain ⟨p1, p2, p3, p4, p5, p6, p7⟩ := scoped_prefix scoped_nil k
    refine ⟨_, hm, rfl, rfl, rfl, by decide, by simp, precedesB_sound rfl, precedesB_sound rfl,
      (fun h => by cases h), ?_⟩
    simp only [fatalAt_trace]
    exact ⟨p1, p2, p3, p4, p5, p6,
      fun e hf => p7 e (fatal_lt _ hf (by intro h; cases h))⟩
  · obtain ⟨p1, p2, p3, p4, p5, p6, p7⟩ := scoped_prefix (scoped_stderr _) k
    refine ⟨_, hm, rfl, rfl, rfl, by decide, by simp [Event.isPush], precedesB_sound rfl,
      precedesB_sound rfl, (fun h => by cases h), ?_⟩
    simp only [fatalAt_trace]
    exact ⟨p1, p2, p3, p4, p5, p6,
      fun e hf => p7 e (fatal_lt _ hf (by intro h; cases h))⟩
  · obtain ⟨p1, p2, p3, p4, p5, p6, p7⟩ := scoped_prefix (scoped_stderr _) k
    refine ⟨_, hm, rfl, rfl, rfl, by decide, by simp [Event.isPush], precedesB_sound rfl,
      precedesB_sound rfl, (fun h => by cases h), ?_⟩
    simp only [fatalAt_trace]
    exact ⟨p1, p2, p3, p4, p5, p6,
      fun e hf => p7 e (fatal_lt _ hf (by intro h; cases h))⟩
  · obtain ⟨h1, h2, h3, h4, h5, h6⟩ :=
      root_scoping_pipeline env b rt (argvAfterGetopt env.permute "u:fc:" argv) u f
    obtain ⟨p1, p2, p3, p4, p5, p6, p7⟩ := scoped_prefix
      (scoped_pipeline env b rt (argvAfterGetopt env.permute "u:fc:" argv) u f) k
    refine ⟨_, hm, h1, h2, ?_, ?_, ?_, h5, h6, fun _ => ⟨h3, h4⟩, ?_⟩
    · show (List.filter _ (pipeline _ _ _ _ _ _)).length =
        (List.filter _ (pipeline _ _ _ _ _ _)).length
      rw [h3, h4]; rfl
    · show (List.filter _ (pipeline _ _ _ _ _ _)).length ≤ 1
      rw [h3]; rfl
    · intro e he hp
      have : e ∈ (pipeline env b rt (argvAfterGetopt env.permute "u:fc:" argv) u f).filter
          Event.isPush := List.mem_filter.2 ⟨he, hp⟩
      rw [h3] at this
      simpa using this
    · simp only [fatalAt_trace]
      exact ⟨p1, p2, p3, p4, p5, p6,
        fun e hf => p7 e (fatal_lt _ hf (by intro h; cases h))⟩

/-! ## Runtime lifecycle and exit status -/

/-- C9: on an accepted argument vector the run starts with the runtime
start-up (`uv_setup_args` first, up to pinning BLAS to one thread), all
of it before the loader, the factories and the dynamics calls; the
finalization hook is called exactly once, it is the last event of the
run, and the pop of the GC frame comes before it. -/
theorem C9_runtime_lifecycle (env : Env) (b : Build) (rt : Runtime) (argv : List String)
    (h : Accepted env.permute argv) :
    ∃ r, main env b rt argv = some r ∧
      r.trace.head? =
        some (.uv_setup_args argv.length (argvAfterGetopt env.permute "u:fc:" argv)) ∧
      r.trace.filter Event.isInit =
        [ .uv_setup_args argv.length (argvAfterGetopt env.permute "u:fc:" argv),
          .libsupport_init,
          .set_image_file b.JULIAC_PROGRAM_LIBNAME, .julia_init,
          .jl_eval_string "using RigidBodyDynamics.LinearAlgebra",
          .jl_eval_string "BLAS.set_num_threads(1)" ] ∧
      Precedes Event.isInit (fun e => e.isLoader || e.isFactory || e.isDynamics) r.trace ∧
      r.trace.filter Event.isHook = [.jl_atexit_hook env.retcode] ∧
      r.trace.getLast? = some (.jl_atexit_hook env.retcode) ∧
      Precedes Event.isPop Event.isHook r.trace ∧
      r.trace.filter Event.isPop = [.JL_GC_POP] := by
  obtain ⟨u, _, hm⟩ := main_accepted env b rt argv h
  refine ⟨_, hm, ?_, ?_, ?_, ?_, ?_, ?_, ?_⟩
  · rw [← argvAfterGetopt_length env.permute "u:fc:" argv]
    rfl
  · rw [filter_pipeline _ _ _ _ _ _ _ (fun e he => (isStore_excl e he).2.2.2.2.2.2.1)]
    simp only [setup, handles, resolve, compute]
    split_ifs <;> simp [Event.isInit, argvAfterGetopt_length]
  · refine precedes_pipeline _ _ _ _ _ _ _ _ (fun e he => (isStore_excl e he).2.2.2.2.2.2.1)
      (fun e he => by cases e <;> first | rfl | cases he) ?_
    simp only [setup]; split_ifs <;> rfl
  · rw [filter_pipeline _ _ _ _ _ _ _ (fun e he => (isStore_excl e he).2.2.2.2.2.1)]
    simp only [setup, handles, resolve, compute]
    split_ifs <;> simp [Event.isHook]
  · show (pipeline _ _ _ _ _ _).getLast? = _
    rw [pipeline_prelude, List.getLast?_append]
    rfl
  · refine precedes_pipeline _ _ _ _ _ _ _ _
      (fun e he => (isStore_excl e he).2.2.2.2.2.2.2.2.2.1)
      (fun e he => (isStore_excl e he).2.2.2.2.2.1) ?_
    simp only [setup]; split_ifs <;> rfl
  · exact (root_scoping_pipeline env b rt (argvAfterGetopt env.permute "u:fc:" argv) u _).2.2.2.1

/-- C9 at `exampleArgv`. -/
theorem C9_runtime_lifecycle_witness :
    Accepted exampleEnv.permute exampleArgv ∧
    ∃ r, main exampleEnv exampleBuild exampleRuntime exampleArgv = some r ∧
      r.trace.head? =
        some (.uv_setup_args exampleArgv.length
          (argvAfterGetopt exampleEnv.permute "u:fc:" exampleArgv)) ∧
      r.trace.filter Event.isInit =
        [ .uv_setup_args exampleArgv.length
            (argvAfterGetopt exampleEnv.permute "u:fc:" exampleArgv),
          .libsupport_init,
          .set_image_file exampleBuild.JULIAC_PROGRAM_LIBNAME, .julia_init,
          .jl_eval_string "using RigidBodyDynamics.LinearAlgebra",
          .jl_eval_string "BLAS.set_num_threads(1)" ] ∧
      Precedes Event.isInit (fun e => e.isLoader || e.isFactory || e.isDynamics) r.trace ∧
      r.trace.filter Event.isHook = [.jl_atexit_hook exampleEnv.retcode] ∧
      r.trace.getLast? = some (.jl_atexit_hook exampleEnv.retcode) ∧
      Precedes Event.isPop Event.isHook r.trace ∧
      r.trace.filter Event.isPop = [.JL_GC_POP] :=
  ⟨by decide, C9_runtime_lifecycle exampleEnv exampleBuild exampleRuntime exampleArgv
    (by decide)⟩

/-- C10, the code at the failing input: on the accepted argument vector
`exampleArgv`, in an environment where the uninitialised `retcode` holds
7 (`exampleEnv`), `main` returns 0 but hands 7 to the finalization hook;
where it holds 0 (`exampleEnvZero`) the same run hands it 0.  The hook's argument is whatever the
uninitialised variable holds. -/
theorem C10_hook_status_indeterminate :
    (∃ r, main exampleEnv exampleBuild exampleRuntime exampleArgv = some r ∧
        r.exit = .exit 0 ∧ r.trace.filter Event.isHook = [.jl_atexit_hook 7]) ∧
    (∃ r, main exampleEnvZero exampleBuild exampleRuntime exampleArgv = some r ∧
        r.exit = .exit 0 ∧ r.trace.filter Event.isHook = [.jl_atexit_hook 0]) :=
  ⟨⟨⟨.exit 0, pipeline exampleEnv exampleBuild exampleRuntime exampleArgv "arm.urdf" false⟩,
      rfl, rfl, by decide⟩,
    ⟨⟨.exit 0, pipeline exampleEnvZero exampleBuild exampleRuntime exampleArgv "arm.urdf" false⟩,
      rfl, rfl, by decide⟩⟩

/-! ## Input population -/

end Driver
